import Mathlib

/-!
Verification of the spill video moment-retrieval pipeline.

Shallow embedding of the core pipeline of the repository:
`clipsai/clip/clipprocessor.py` (fallback segmentation, clip filename
encoding and cache reader), `lighthouse/momentprocessor.py` (confidence
gating, duplicate suppression, absolute-time reconstruction, moment
filename encoding, per-clip moment cache) and `demo.py` (per-query
aggregation loop over a video's clips).

Python strings are modelled as `List Char`; machine floats as `ℚ`
(the comparisons and arithmetic in scope are exact on the values the
claims quantify over); the external collaborators (the neural predictor
and the ffmpeg trim operation) are oracle parameters.
-/

namespace Spill

/-- Characters of a Lean string literal, used to write Python string
literals from the source as `List Char` values. -/
def chars (s : String) : List Char := s.data

/-- Decimal digit character for `d < 10` (models the digits produced by
Python numeric formatting). -/
def digitChar (d : ℕ) : Char :=
  match d with
  | 0 => '0' | 1 => '1' | 2 => '2' | 3 => '3' | 4 => '4'
  | 5 => '5' | 6 => '6' | 7 => '7' | 8 => '8' | _ => '9'

/-- Numeric value of a decimal digit character, `none` on any other
character (models the digit handling of Python `float()`). -/
def digitVal (c : Char) : Option ℕ :=
  if c.isDigit then some (c.toNat - 48) else none

/-- Fuelled big-endian decimal rendering of a natural number; with fuel
above the number the result is its usual decimal numeral. -/
def natToCharsAux : ℕ → ℕ → List Char
  | 0, _ => []
  | fuel + 1, n =>
    if n < 10 then [digitChar n]
    else natToCharsAux fuel (n / 10) ++ [digitChar (n % 10)]

/-- Decimal numeral of a natural number (models Python `str`/`format` of
a nonnegative integer). -/
def natToChars (n : ℕ) : List Char := natToCharsAux (n + 1) n

/-- Whether `sep` is a leading segment of `xs` (the matching test Python
`str.split` and `str.replace` perform at each scan position). -/
def leadsWith : List Char → List Char → Bool
  | [], _ => true
  | _ :: _, [] => false
  | s :: ss, c :: cs => s = c && leadsWith ss cs

/-- Leftmost-scan splitter with fuel, mirroring Python `str.split(sep)`:
`acc` accumulates the current chunk in reverse; at a position where `sep`
leads, the chunk is emitted and `sep` consumed. -/
def pySplitAux (sep : List Char) : ℕ → List Char → List Char → List (List Char)
  | 0, acc, xs => [acc.reverse ++ xs]
  | _ + 1, acc, [] => [acc.reverse]
  | fuel + 1, acc, c :: rest =>
    if leadsWith sep (c :: rest) then
      acc.reverse :: pySplitAux sep fuel [] (rest.drop (sep.length - 1))
    else
      pySplitAux sep fuel (c :: acc) rest

/-- Python `xs.split(sep)` for a nonempty separator. -/
def pySplit (sep xs : List Char) : List (List Char) :=
  pySplitAux sep (xs.length + 1) [] xs

/-- No occurrence of `sep` starts inside the region `xs` of the string
`xs ++ t` (an occurrence may well start in `t`). -/
def NoOccIn (sep xs t : List Char) : Prop :=
  ∀ i, i < xs.length → leadsWith sep ((xs ++ t).drop i) = false

/-- Whether `sep` occurs anywhere in `xs`. -/
def containsSub (sep : List Char) : List Char → Bool
  | [] => leadsWith sep []
  | c :: cs => leadsWith sep (c :: cs) || containsSub sep cs

/-- Left-to-right accumulation of decimal digits; `none` on the first
non-digit character. -/
def parseDigitsFrom (acc : ℕ) : List Char → Option ℕ
  | [] => some acc
  | c :: cs =>
    match digitVal c with
    | none => none
    | some d => parseDigitsFrom (10 * acc + d) cs

/-- Python `float()` restricted to the decimal forms `digits`,
`digits.digits`, `.digits` and `digits.` that the pipeline's filename
encodings produce; every other string is a parse failure, as it is for
the strings the parsers in scope can actually meet. -/
def parseFloat (xs : List Char) : Option ℚ :=
  match pySplit ['.'] xs with
  | [a] =>
    if a = [] then none
    else (parseDigitsFrom 0 a).map (fun n => (n : ℚ))
  | [a, b] =>
    if a = [] ∧ b = [] then none
    else
      match parseDigitsFrom 0 a, parseDigitsFrom 0 b with
      | some ia, some ib => some ((ia : ℚ) + (ib : ℚ) / 10 ^ b.length)
      | _, _ => none
  | _ => none

/-- Zero padding on the left to width `w` (models the `0p` width part of
Python format specs). -/
def padZeros (w : ℕ) (cs : List Char) : List Char :=
  List.replicate (w - cs.length) '0' ++ cs

/-- Python `f"{n:03d}"` for a natural number. -/
def pad3 (n : ℕ) : List Char := padZeros 3 (natToChars n)

/-- Python `f"{q:.pf}"` for a nonnegative rational: the value is scaled
by `10 ^ p`, rounded to the nearest integer, and printed with `p` digits
after the point. On values exactly representable at precision `p` (the
only values the claims quantify over) this agrees with Python's
float formatting. -/
def fmtF (p : ℕ) (q : ℚ) : List Char :=
  let n : ℕ := (Int.floor (q * 10 ^ p + 1 / 2)).toNat
  natToChars (n / 10 ^ p) ++ ['.'] ++ padZeros p (natToChars (n % 10 ^ p))

/-- Loop of `ClipProcessor._create_manual_clips`
(`clipsai/clip/clipprocessor.py`, lines 52-68): `for current_time in
range(0, duration, 149)` with `end_time = min(current_time + 149,
duration)`; each iteration contributes the pair
`(current_time, end_time)`. -/
def manualClipsFrom (D cur : ℕ) : List (ℕ × ℕ) :=
  if cur < D then (cur, min (cur + 149) D) :: manualClipsFrom D (cur + 149) else []
termination_by D - cur
decreasing_by omega

/-- Segments produced by `_create_manual_clips` for a probed integer
duration `D = int(total_frames / fps)`. -/
def createManualClips (D : ℕ) : List (ℕ × ℕ) := manualClipsFrom D 0

/-- Clip filename
`f"{video_id}_clip_{clip_index:03d}_{current_time:.1f}s_to_{end_time:.1f}s.mp4"`
(`clipsai/clip/clipprocessor.py`, line 58 and line 130). -/
def clipName (videoId : List Char) (i : ℕ) (s e : ℚ) : List Char :=
  videoId ++ chars "_clip_" ++ pad3 i ++ chars "_" ++ fmtF 1 s ++ chars "s_to_" ++
    fmtF 1 e ++ chars "s.mp4"

/-- Clip-cache filename parser of `ClipProcessor.process_video`
(lines 98-111): `parts = file.split('.mp4')[0].split('_')`,
`start_time = float(parts[4][:-1])`, `end_time = float(parts[6][:-1])`;
an `IndexError` or `ValueError` (modelled by `none`) makes the reader
skip the file. -/
def parseClipFile (f : List Char) : Option (ℚ × ℚ) := do
  let parts := pySplit (chars "_") ((pySplit (chars ".mp4") f).headD [])
  let p4 ← parts[4]?
  let s ← parseFloat p4.dropLast
  let p6 ← parts[6]?
  let e ← parseFloat p6.dropLast
  pure (s, e)

/-- `MomentProcessor._get_clip_timestamps`
(`lighthouse/momentprocessor.py`, lines 138-158): start time recovered
from the clip filename; any parse failure is caught and `0.0` returned. -/
def getClipTimestamps (f : List Char) : ℚ :=
  (do
    let timePart ← (pySplit (chars "_clip_") f)[1]?
    let t1 := (pySplit (chars ".mp4") timePart).headD []
    let st := (pySplit (chars "_to_") t1).headD []
    let st2 := st.filter (fun c => c ≠ 's')
    let p ← (pySplit (chars "_") st2)[1]?
    parseFloat p).getD 0

/-- Clip end time parsed in `_process_predictions` (line 206):
`float(clip_filename.split('_to_')[1].replace('s.mp4', ''))`; `none`
models the exception the caller `process_clip` catches. -/
def parseClipEndTime (f : List Char) : Option ℚ := do
  let part ← (pySplit (chars "_to_") f)[1]?
  parseFloat ((pySplit (chars "s.mp4") part).flatten)

/-- Moment record of `lighthouse/momentprocessor.py`: absolute
start/end, confidence and, once extraction succeeded, the moment
filename. -/
structure Moment where
  startTime : ℚ
  endTime : ℚ
  confidence : ℚ
  filename : List Char
deriving DecidableEq, Repr

/-- `MomentProcessor._is_duplicate_moment` (lines 68-99); the unused
`time_threshold` parameter of the source is omitted. -/
def isDuplicateMoment (m : Moment) (existing : List Moment)
    (clipStartTime clipEndTime : ℚ) : Bool :=
  let clipMoments := existing.filter fun e =>
    decide (e.startTime ≥ clipStartTime) && decide (e.endTime ≤ clipEndTime)
  clipMoments.any fun e =>
    let overlapStart := max m.startTime e.startTime
    let overlapEnd := min m.endTime e.endTime
    let overlapDuration := max 0 (overlapEnd - overlapStart)
    decide (overlapDuration > 0.5 * (m.endTime - m.startTime))

/-- Moment filename
`f"video_{video_id}_moment_{len(existing_moments)+1:03d}_{abs_start_time:.1f}s_to_{abs_end_time:.1f}s_conf_{confidence:.2f}.mp4"`
(line 214). -/
def momentName (videoId : List Char) (n : ℕ) (s e c : ℚ) : List Char :=
  chars "video_" ++ videoId ++ chars "_moment_" ++ pad3 n ++ chars "_" ++ fmtF 1 s ++
    chars "s_to_" ++ fmtF 1 e ++ chars "s_conf_" ++ fmtF 2 c ++ chars ".mp4"

/-- Outcome of `_process_predictions`. `moments` is the returned list,
`existing` the (mutated) `existing_moments` list. `trimCalls` and
`dupCheckInput` are ghost observations that do not affect the data:
how often `_extract_moment_video` ran, and the `existing_moments`
argument at the point `_is_duplicate_moment` was invoked (`none` when
control never reached that call). -/
structure PPResult where
  moments : List Moment
  existing : List Moment
  trimCalls : ℕ
  dupCheckInput : Option (List Moment)
deriving DecidableEq, Repr

/-- `MomentProcessor._process_predictions` (lines 160-226). `trim` is
the external ffmpeg extraction oracle (arguments: clip path, relative
start, relative end, output filename). `predictions` is `none` when the
predictor output is missing the `pred_relevant_windows` key. The outer
`none` models an uncaught exception (the `float()` call on a malformed
clip filename), which propagates to `process_clip`. -/
def processPredictions (trim : List Char → ℚ → ℚ → List Char → Bool)
    (predictions : Option (List (ℚ × ℚ × ℚ))) (videoId clipPath : List Char)
    (existing : List Moment) (clipStartTime : ℚ) : Option PPResult :=
  match predictions with
  | none => some ⟨[], existing, 0, none⟩
  | some [] => some ⟨[], existing, 0, none⟩
  | some ((relStart, relEnd, confidence) :: _) =>
    let absStartTime := relStart + clipStartTime
    let absEndTime := relEnd + clipStartTime
    if confidence < 0.75 then some ⟨[], existing, 0, none⟩
    else
      let moment : Moment := ⟨absStartTime, absEndTime, confidence, []⟩
      match parseClipEndTime clipPath with
      | none => none
      | some clipEndTime =>
        if isDuplicateMoment moment existing clipStartTime clipEndTime then
          some ⟨[], existing, 0, some existing⟩
        else
          let momentFilename :=
            momentName videoId (existing.length + 1) absStartTime absEndTime confidence
          if trim clipPath relStart relEnd momentFilename then
            let m : Moment := { moment with filename := momentFilename }
            some ⟨[m], existing ++ [m], 1, some existing⟩
          else
            some ⟨[], existing, 1, some existing⟩

/-- Moment-cache filename parser inside `process_clip` (lines 257-273):
`parts = file.split('.mp4')[0].split('_')`, fields 4, 6 (with the
trailing `s` stripped) and 8; parse failures skip the file. -/
def parseMomentFile (f : List Char) : Option Moment := do
  let parts := pySplit (chars "_") ((pySplit (chars ".mp4") f).headD [])
  let p4 ← parts[4]?
  let s ← parseFloat p4.dropLast
  let p6 ← parts[6]?
  let e ← parseFloat p6.dropLast
  let p8 ← parts[8]?
  let c ← parseFloat p8
  pure ⟨s, e, c, f⟩

/-- Cached moments read from the files of a clip's moment directory
(lines 255-276): only `.mp4` files, unparsable names skipped. -/
def readMomentsDir (files : List (List Char)) : List Moment :=
  (files.filter fun f => (chars ".mp4").isSuffixOf f).filterMap parseMomentFile

/-- Outcome of `process_clip`. `dir` is the clip's moment cache
directory afterwards (`none` would mean it does not exist; the call
always creates it). `encodeCalls`/`predictCalls` are ghost counters of
`model.encode_video` and `model.predict` invocations, and
`dupCheckInput` is passed through from `_process_predictions`. -/
structure ClipResult where
  moments : List Moment
  dir : Option (List (List Char))
  encodeCalls : ℕ
  predictCalls : ℕ
  dupCheckInput : Option (List Moment)
deriving DecidableEq, Repr

/-- `MomentProcessor.process_clip` (lines 228-300) for one clip of one
video and one query. `dir` is the state of this (video, query, clip)
moment directory on entry. `predictions` stands for
`model.predict(query, model.encode_video(clip_path))`, fixed for the
given clip and query. A successful trim writes the moment file into the
directory. Line 290 passes a literal fresh `[]` as `existing_moments`. -/
def processClip (trim : List Char → ℚ → ℚ → List Char → Bool)
    (predictions : Option (List (ℚ × ℚ × ℚ))) (videoId clipFile : List Char)
    (dir : Option (List (List Char))) : ClipResult :=
  let clipStartTime := getClipTimestamps clipFile
  let cached := match dir with
    | some files => readMomentsDir files
    | none => []
  if cached ≠ [] then
    ⟨cached, dir, 0, 0, none⟩
  else
    let files0 := dir.getD []
    match processPredictions trim predictions videoId clipFile [] clipStartTime with
    | none => ⟨[], some files0, 1, 1, none⟩
    | some pp =>
      ⟨pp.moments, some (files0 ++ pp.moments.map Moment.filename), 1, 1, pp.dupCheckInput⟩

/-- Per-clip results of the loop of `process_clip_for_moments`
(`demo.py`, lines 86-96) on a fresh run: every clip's moment directory
starts absent, and each call receives the predictor's output for that
clip. -/
def pipelineTrace (trim : List Char → ℚ → ℚ → List Char → Bool)
    (predFor : List Char → Option (List (ℚ × ℚ × ℚ))) (videoId : List Char)
    (listing : List (List Char)) : List ClipResult :=
  (listing.filter fun f => (chars ".mp4").isSuffixOf f).map fun f =>
    processClip trim (predFor f) videoId f none

/-- `all_moments` accumulated by `process_clip_for_moments`
(`demo.py`, lines 87-96): the clips of the directory listing are
processed in listing order and each clip's moments are appended. -/
def processClipForMoments (trim : List Char → ℚ → ℚ → List Char → Bool)
    (predFor : List Char → Option (List (ℚ × ℚ × ℚ))) (videoId : List Char)
    (listing : List (List Char)) : List Moment :=
  ((pipelineTrace trim predFor videoId listing).map ClipResult.moments).flatten

/-- Conjunction of the segmentation properties claimed for the manual
fallback: segment count is the ceiling of `D / 149` (pinned by the two
bracketing inequalities), segment `i` (1-based) spans
`[149*(i-1), min (149*i) D)`, segments are pairwise non-overlapping,
their union covers `[0, D)` exactly, and the last segment has length
`D - 149*(n-1)` and ends at `D`. -/
def SegmentationSpec (D : ℕ) : Prop :=
  (createManualClips D).length = (D + 148) / 149 ∧
  D ≤ 149 * ((D + 148) / 149) ∧
  149 * ((D + 148) / 149 - 1) < D ∧
  (∀ i, 1 ≤ i → i ≤ (D + 148) / 149 →
    (createManualClips D)[i - 1]? = some (149 * (i - 1), min (149 * i) D)) ∧
  (∀ p q, p ∈ createManualClips D → q ∈ createManualClips D → p ≠ q →
    p.2 ≤ q.1 ∨ q.2 ≤ p.1) ∧
  (∀ t, t < D ↔ ∃ p ∈ createManualClips D, p.1 ≤ t ∧ t < p.2) ∧
  (∃ p, (createManualClips D)[(D + 148) / 149 - 1]? = some p ∧ p.2 = D ∧
    p.2 - p.1 = D - 149 * ((D + 148) / 149 - 1))

/-- Value recovered by `float()` from a number printed with `p` decimal
digits: the input rounded to that precision. -/
def roundFix (p : ℕ) (q : ℚ) : ℚ :=
  (((Int.floor (q * 10 ^ p + 1 / 2)).toNat : ℚ)) / 10 ^ p

theorem natToCharsAux_fuel (fuel fuel' n : ℕ) (h : n < fuel) (h2 : n < fuel') :
    natToCharsAux fuel n = natToCharsAux fuel' n := by
  induction n using Nat.strong_induction_on generalizing fuel fuel' with
  | _ n ih =>
    match fuel, fuel' with
    | f + 1, f' + 1 =>
      by_cases h10 : n < 10
      · simp [natToCharsAux, h10]
      · have hd : n / 10 < n := Nat.div_lt_self (by omega) (by omega)
        simp only [natToCharsAux, h10, if_false]
        rw [ih (n / 10) hd f f' (by omega) (by omega)]

/-- Recurrence for `natToChars` independent of fuel. -/
theorem natToChars_eq (n : ℕ) :
    natToChars n =
      if n < 10 then [digitChar n] else natToChars (n / 10) ++ [digitChar (n % 10)] := by
  by_cases h10 : n < 10
  · simp [natToChars, natToCharsAux, h10]
  · have hd : n / 10 < n := Nat.div_lt_self (by omega) (by omega)
    rw [if_neg h10]
    have h1 : natToChars n = natToCharsAux n (n / 10) ++ [digitChar (n % 10)] := by
      simp [natToChars, natToCharsAux, h10]
    rw [h1, natToCharsAux_fuel n (n / 10 + 1) (n / 10) hd (by omega)]
    rfl

theorem digitChar_isDigit (d : ℕ) (h : d < 10) : (digitChar d).isDigit = true := by
  interval_cases d <;> decide

theorem digitVal_digitChar (d : ℕ) (h : d < 10) : digitVal (digitChar d) = some d := by
  interval_cases d <;> decide

theorem natToChars_ne_nil (n : ℕ) : natToChars n ≠ [] := by
  rw [natToChars_eq]
  split <;> simp

theorem natToChars_isDigit (n : ℕ) : ∀ c ∈ natToChars n, c.isDigit = true := by
  induction n using Nat.strong_induction_on with
  | _ n ih =>
    rw [natToChars_eq]
    by_cases h10 : n < 10
    · simp only [h10, if_true, List.mem_singleton]
      rintro c rfl
      exact digitChar_isDigit n h10
    · simp only [h10, if_false, List.mem_append, List.mem_singleton]
      rintro c (hc | rfl)
      · exact ih (n / 10) (Nat.div_lt_self (by omega) (by omega)) c hc
      · exact digitChar_isDigit _ (Nat.mod_lt _ (by omega))

theorem isDigit_ne (c : Char) (h : c.isDigit = true) :
    c ≠ '_' ∧ c ≠ 's' ∧ c ≠ 't' ∧ c ≠ '.' ∧ c ≠ 'c' ∧ c ≠ 'm' := by
  refine ⟨?_, ?_, ?_, ?_, ?_, ?_⟩ <;> rintro rfl <;> simp [Char.isDigit] at h

theorem leadsWith_iff (sep xs : List Char) :
    leadsWith sep xs = true ↔ ∃ t, xs = sep ++ t := by
  induction sep generalizing xs with
  | nil => simp [leadsWith]
  | cons s ss ih =>
    cases xs with
    | nil => simp [leadsWith]
    | cons c cs =>
      simp only [leadsWith, Bool.and_eq_true, decide_eq_true_eq, ih, List.cons_append,
        List.cons.injEq]
      constructor
      · rintro ⟨rfl, t, rfl⟩
        exact ⟨t, rfl, rfl⟩
      · rintro ⟨t, rfl, rfl⟩
        exact ⟨rfl, t, rfl⟩

theorem leadsWith_append_self (sep t : List Char) : leadsWith sep (sep ++ t) = true :=
  (leadsWith_iff sep (sep ++ t)).2 ⟨t, rfl⟩

theorem leadsWith_of_length_le (sep a b : List Char) (h : leadsWith sep (a ++ b) = true)
    (hl : sep.length ≤ a.length) : leadsWith sep a = true := by
  induction sep generalizing a with
  | nil => simp [leadsWith]
  | cons s ss ih =>
    cases a with
    | nil => simp at hl
    | cons x a2 =>
      simp only [List.cons_append, leadsWith, Bool.and_eq_true] at h ⊢
      exact ⟨h.1, ih a2 h.2 (by simpa using hl)⟩

theorem leadsWith_getElem (sep ys : List Char) (h : leadsWith sep ys = true)
    (j : ℕ) (hj : j < sep.length) : ys[j]? = some sep[j] := by
  obtain ⟨t, rfl⟩ := (leadsWith_iff sep ys).1 h
  rw [List.getElem?_append_left hj, List.getElem?_eq_getElem hj]

theorem pySplitAux_fuel (sep : List Char) (fuel fuel' : ℕ) (acc xs : List Char)
    (h : xs.length < fuel) (h2 : xs.length < fuel') :
    pySplitAux sep fuel acc xs = pySplitAux sep fuel' acc xs := by
  induction fuel generalizing fuel' acc xs with
  | zero => omega
  | succ f ih =>
    match fuel', xs with
    | f2 + 1, [] => rfl
    | f2 + 1, c :: rest =>
      by_cases hl : leadsWith sep (c :: rest) = true
      · simp only [pySplitAux, if_pos hl]
        rw [ih f2 [] (rest.drop (sep.length - 1))
          (by simp only [List.length_drop]; simp at h; omega)
          (by simp only [List.length_drop]; simp at h2; omega)]
      · simp only [pySplitAux, if_neg hl]
        exact ih f2 (c :: acc) rest (by simp at h; omega) (by simp at h2; omega)

theorem pySplitAux_nil (sep acc : List Char) (fuel : ℕ) :
    pySplitAux sep (fuel + 1) acc [] = [acc.reverse] := rfl

theorem pySplitAux_cons (sep acc : List Char) (fuel : ℕ) (c : Char) (rest : List Char)
    (h : rest.length < fuel) :
    pySplitAux sep (fuel + 1) acc (c :: rest) =
      if leadsWith sep (c :: rest) then
        acc.reverse :: pySplitAux sep ((rest.drop (sep.length - 1)).length + 1) []
          (rest.drop (sep.length - 1))
      else
        pySplitAux sep (rest.length + 1) (c :: acc) rest := by
  by_cases hl : leadsWith sep (c :: rest) = true
  · simp only [pySplitAux, if_pos hl]
    rw [pySplitAux_fuel sep fuel ((rest.drop (sep.length - 1)).length + 1) [] _
      (by simp only [List.length_drop]; omega) (by omega)]
  · simp only [pySplitAux, if_neg hl]
    rw [pySplitAux_fuel sep fuel (rest.length + 1) (c :: acc) rest h (by omega)]

theorem containsSub_eq_false_iff (sep xs : List Char) (hsep : sep ≠ []) :
    containsSub sep xs = false ↔ ∀ i, leadsWith sep (xs.drop i) = false := by
  induction xs with
  | nil =>
    obtain ⟨s, ss, rfl⟩ : ∃ s ss, sep = s :: ss := by
      cases sep with
      | nil => exact absurd rfl hsep
      | cons s ss => exact ⟨s, ss, rfl⟩
    simp [containsSub, leadsWith]
  | cons c cs ih =>
    simp only [containsSub, Bool.or_eq_false_iff]
    rw [ih]
    constructor
    · rintro ⟨h0, hrest⟩ i
      cases i with
      | zero => exact h0
      | succ j => simpa using hrest j
    · intro h
      exact ⟨h 0, fun j => by simpa using h (j + 1)⟩

theorem pySplitAux_no_occ (sep : List Char) (acc xs : List Char) (fuel : ℕ)
    (hf : xs.length < fuel) (h : ∀ i, i < xs.length → leadsWith sep (xs.drop i) = false) :
    pySplitAux sep fuel acc xs = [acc.reverse ++ xs] := by
  induction xs generalizing acc fuel with
  | nil =>
    match fuel with
    | f + 1 => simp [pySplitAux]
  | cons c rest ih =>
    match fuel with
    | f + 1 =>
      have h0 : leadsWith sep (c :: rest) = false := by simpa using h 0 (by simp)
      simp only [pySplitAux, h0, Bool.false_eq_true, if_false]
      rw [ih (c :: acc) f (by simp at hf; omega)
        (fun i hi => by simpa using h (i + 1) (by simp; omega))]
      simp

theorem pySplitAux_boundary (sep : List Char) (hsep : sep ≠ []) (acc a b : List Char)
    (fuel : ℕ) (hf : (a ++ sep ++ b).length < fuel) (h : NoOccIn sep a (sep ++ b)) :
    pySplitAux sep fuel acc (a ++ sep ++ b) = (acc.reverse ++ a) :: pySplit sep b := by
  induction a generalizing acc fuel with
  | nil =>
    obtain ⟨s, ss, rfl⟩ : ∃ s ss, sep = s :: ss := by
      cases sep with
      | nil => exact absurd rfl hsep
      | cons s ss => exact ⟨s, ss, rfl⟩
    match fuel with
    | f + 1 =>
      have hx : ([] : List Char) ++ (s :: ss) ++ b = s :: (ss ++ b) := by simp
      rw [hx]
      have hl : leadsWith (s :: ss) (s :: (ss ++ b)) = true := by
        have := leadsWith_append_self (s :: ss) b
        simpa using this
      simp only [pySplitAux, hl, if_true]
      have hdrop : (ss ++ b).drop ((s :: ss).length - 1) = b := by
        simp only [List.length_cons, Nat.add_sub_cancel]
        exact List.drop_left ss b
      rw [hdrop, pySplitAux_fuel (s :: ss) f (b.length + 1) [] b
        (by simp at hf; omega) (by omega)]
      simp [pySplit]
  | cons x a2 ih =>
    match fuel with
    | f + 1 =>
      have hx : (x :: a2) ++ sep ++ b = x :: (a2 ++ sep ++ b) := by simp
      have h0 : leadsWith sep (x :: (a2 ++ sep ++ b)) = false := by
        have := h 0 (by simp)
        simpa [hx] using this
      rw [hx]
      simp only [pySplitAux, h0, Bool.false_eq_true, if_false]
      rw [ih (x :: acc) f (by simp at hf ⊢; omega)
        (fun i hi => by
          have := h (i + 1) (by simp at hi ⊢; omega)
          simpa [hx] using this)]
      simp

theorem pySplit_no_occ (sep xs : List Char) (h : NoOccIn sep xs []) :
    pySplit sep xs = [xs] := by
  have h2 : ∀ i, i < xs.length → leadsWith sep (xs.drop i) = false := by
    intro i hi
    have := h i hi
    simpa using this
  have := pySplitAux_no_occ sep [] xs (xs.length + 1) (by omega) h2
  simpa [pySplit] using this

theorem pySplit_boundary (sep : List Char) (hsep : sep ≠ []) (a b : List Char)
    (h : NoOccIn sep a (sep ++ b)) :
    pySplit sep (a ++ sep ++ b) = a :: pySplit sep b := by
  have := pySplitAux_boundary sep hsep [] a b ((a ++ sep ++ b).length + 1) (by omega) h
  simpa [pySplit] using this

theorem noOccIn_nil (sep t : List Char) : NoOccIn sep [] t := by
  intro i hi
  simp at hi

theorem noOccIn_append (sep a b t : List Char) (h1 : NoOccIn sep a (b ++ t))
    (h2 : NoOccIn sep b t) : NoOccIn sep (a ++ b) t := by
  intro i hi
  rw [List.append_assoc]
  rcases Nat.lt_or_ge i a.length with hlt | hge
  · exact h1 i hlt
  · obtain ⟨k, rfl⟩ : ∃ k, i = a.length + k := ⟨i - a.length, by omega⟩
    rw [List.drop_append]
    have hk : k < b.length := by simp at hi; omega
    exact h2 k hk

theorem noOccIn_head (c : Char) (ss a t : List Char) (h : ∀ x ∈ a, x ≠ c) :
    NoOccIn (c :: ss) a t := by
  intro i hi
  by_contra hcon
  have htrue : leadsWith (c :: ss) ((a ++ t).drop i) = true := by
    cases hb : leadsWith (c :: ss) ((a ++ t).drop i) with
    | false => exact absurd hb hcon
    | true => rfl
  have hget := leadsWith_getElem (c :: ss) _ htrue 0 (by simp)
  rw [List.getElem?_drop] at hget
  rw [List.getElem?_append_left (by omega)] at hget
  simp only [Nat.add_zero, List.getElem_cons_zero] at hget
  have hmem : c ∈ a := by
    have := List.getElem?_eq_some_iff.1 hget
    obtain ⟨hlt, heq⟩ := this
    exact heq ▸ List.getElem_mem hlt
  exact h c hmem rfl

theorem noOccIn_pair (c0 c1 : Char) (ss : List Char) (x d : Char) (t : List Char)
    (h : x ≠ c0 ∨ d ≠ c1) : NoOccIn (c0 :: c1 :: ss) [x] (d :: t) := by
  intro i hi
  simp only [List.length_singleton] at hi
  obtain rfl : i = 0 := by omega
  simp only [List.singleton_append, List.drop_zero, leadsWith]
  rcases h with h | h
  · simp [Ne.symm h]
  · simp [leadsWith, Ne.symm h]

theorem noOccIn_not_contains (sep xs : List Char) (d : Char) (t : List Char)
    (hsep : sep ≠ []) (h1 : containsSub sep xs = false) (h2 : d ∉ sep) :
    NoOccIn sep xs (d :: t) := by
  intro i hi
  by_contra hcon
  have htrue : leadsWith sep ((xs ++ d :: t).drop i) = true := by
    cases hb : leadsWith sep ((xs ++ d :: t).drop i) with
    | false => exact absurd hb hcon
    | true => rfl
  rcases le_or_lt sep.length (xs.length - i) with hle | hgt
  · have hdrop : (xs ++ d :: t).drop i = xs.drop i ++ d :: t :=
      List.drop_append_of_le_length (by omega)
    rw [hdrop] at htrue
    have hxs : leadsWith sep (xs.drop i) = true :=
      leadsWith_of_length_le sep (xs.drop i) (d :: t) htrue
        (by rw [List.length_drop]; omega)
    have := (containsSub_eq_false_iff sep xs hsep).1 h1 i
    rw [this] at hxs
    exact absurd hxs (by simp)
  · set j := xs.length - i with hj
    have hget := leadsWith_getElem sep _ htrue j hgt
    rw [List.getElem?_drop] at hget
    have hidx : i + j = xs.length := by omega
    rw [hidx, List.getElem?_append_right (by omega)] at hget
    simp only [Nat.sub_self, List.getElem?_cons_zero] at hget
    have hdm : d = sep[j] := by
      simpa using hget
    exact h2 (hdm ▸ List.getElem_mem hgt)

theorem parseDigitsFrom_append (acc : ℕ) (xs ys : List Char) :
    parseDigitsFrom acc (xs ++ ys) =
      (parseDigitsFrom acc xs).bind (fun a => parseDigitsFrom a ys) := by
  induction xs generalizing acc with
  | nil => simp [parseDigitsFrom]
  | cons c cs ih =>
    simp only [List.cons_append, parseDigitsFrom]
    cases digitVal c with
    | none => simp
    | some d => exact ih (10 * acc + d)

theorem parseDigitsFrom_natToChars (acc n : ℕ) :
    parseDigitsFrom acc (natToChars n) =
      some (acc * 10 ^ (natToChars n).length + n) := by
  induction n using Nat.strong_induction_on generalizing acc with
  | _ n ih =>
    rw [natToChars_eq]
    by_cases h10 : n < 10
    · rw [if_pos h10]
      simp [parseDigitsFrom, digitVal_digitChar n h10]
      ring
    · rw [if_neg h10]
      rw [parseDigitsFrom_append]
      rw [ih (n / 10) (Nat.div_lt_self (by omega) (by omega)) acc]
      simp only [Option.some_bind, parseDigitsFrom, digitVal_digitChar (n % 10)
        (Nat.mod_lt _ (by omega)), List.length_append, List.length_singleton]
      congr 1
      rw [pow_succ, ← mul_assoc]
      generalize acc * 10 ^ (natToChars (n / 10)).length = T
      omega

theorem parseDigits_natToChars (n : ℕ) : parseDigitsFrom 0 (natToChars n) = some n := by
  rw [parseDigitsFrom_natToChars]
  simp

theorem parseDigitsFrom_zeros (k : ℕ) (rest : List Char) :
    parseDigitsFrom 0 (List.replicate k '0' ++ rest) = parseDigitsFrom 0 rest := by
  induction k with
  | zero => simp
  | succ j ih => simpa [List.replicate_succ, parseDigitsFrom, digitVal] using ih

theorem parseDigits_padZeros (w m : ℕ) :
    parseDigitsFrom 0 (padZeros w (natToChars m)) = some m := by
  rw [padZeros, parseDigitsFrom_zeros]
  exact parseDigits_natToChars m

theorem natToChars_length_le (k n : ℕ) (hk : 1 ≤ k) (h : n < 10 ^ k) :
    (natToChars n).length ≤ k := by
  induction n using Nat.strong_induction_on generalizing k with
  | _ n ih =>
    rw [natToChars_eq]
    by_cases h10 : n < 10
    · simp only [if_pos h10, List.length_singleton]
      omega
    · rw [if_neg h10]
      have hk2 : 2 ≤ k := by
        by_contra hcon
        have : k = 1 := by omega
        subst this
        simp at h
        omega
      have hdiv : n / 10 < 10 ^ (k - 1) := by
        have h1 : 10 ^ k = 10 ^ (k - 1) * 10 := by
          rw [← pow_succ]
          congr 1
          omega
        rw [h1] at h
        exact Nat.div_lt_of_lt_mul (by omega)
      have := ih (n / 10) (Nat.div_lt_self (by omega) (by omega)) (k - 1) (by omega) hdiv
      simp only [List.length_append, List.length_singleton]
      omega

theorem padZeros_length (w : ℕ) (cs : List Char) (h : cs.length ≤ w) :
    (padZeros w cs).length = w := by
  simp [padZeros]
  omega

theorem padZeros_chars (w : ℕ) (cs : List Char) (h : ∀ c ∈ cs, c.isDigit = true) :
    ∀ c ∈ padZeros w cs, c.isDigit = true := by
  intro c hc
  rw [padZeros, List.mem_append] at hc
  rcases hc with hc | hc
  · rw [List.eq_of_mem_replicate hc]
    decide
  · exact h c hc

theorem pad3_chars (n : ℕ) : ∀ c ∈ pad3 n, c.isDigit = true :=
  padZeros_chars 3 (natToChars n) (natToChars_isDigit n)

theorem fmtF_chars (p : ℕ) (q : ℚ) :
    ∀ c ∈ fmtF p q, c.isDigit = true ∨ c = '.' := by
  intro c hc
  rw [fmtF] at hc
  simp only [List.append_assoc, List.mem_append, List.mem_singleton] at hc
  rcases hc with hc | hc | hc
  · exact Or.inl (natToChars_isDigit _ c hc)
  · exact Or.inr hc
  · exact Or.inl (padZeros_chars p _ (natToChars_isDigit _) c hc)

theorem fmtF_ne_nil (p : ℕ) (q : ℚ) : fmtF p q ≠ [] := by
  rw [fmtF]
  simp [natToChars_ne_nil]

theorem parseFloat_fmtF (p : ℕ) (q : ℚ) (hp : 1 ≤ p) :
    parseFloat (fmtF p q) =
      some ((((Int.floor (q * 10 ^ p + 1 / 2)).toNat : ℚ)) / 10 ^ p) := by
  set n : ℕ := (Int.floor (q * 10 ^ p + 1 / 2)).toNat with hn
  have hAd : ∀ c ∈ natToChars (n / 10 ^ p), c.isDigit = true := natToChars_isDigit _
  have hBd : ∀ c ∈ padZeros p (natToChars (n % 10 ^ p)), c.isDigit = true :=
    padZeros_chars _ _ (natToChars_isDigit _)
  have hsplit : pySplit ['.'] (fmtF p q) =
      [natToChars (n / 10 ^ p), padZeros p (natToChars (n % 10 ^ p))] := by
    have hform : fmtF p q =
        natToChars (n / 10 ^ p) ++ ['.'] ++ padZeros p (natToChars (n % 10 ^ p)) := by
      rw [fmtF]
    rw [hform]
    rw [pySplit_boundary ['.'] (by simp) _ _
      (noOccIn_head '.' [] _ _ (fun x hx => ((isDigit_ne x (hAd x hx)).2.2.2.1)))]
    rw [pySplit_no_occ ['.'] _
      (noOccIn_head '.' [] _ _ (fun x hx => ((isDigit_ne x (hBd x hx)).2.2.2.1)))]
  have hne : ¬(natToChars (n / 10 ^ p) = [] ∧ padZeros p (natToChars (n % 10 ^ p)) = []) :=
    fun hcon => natToChars_ne_nil _ hcon.1
  have hBlen : (padZeros p (natToChars (n % 10 ^ p))).length = p :=
    padZeros_length p _ (natToChars_length_le p _ hp (Nat.mod_lt _ (by positivity)))
  simp only [parseFloat, hsplit, if_neg hne, parseDigits_natToChars, parseDigits_padZeros,
    hBlen]
  congr 1
  have hmod : (10 : ℚ) ^ p ≠ 0 := by positivity
  rw [eq_div_iff hmod, add_mul, div_mul_cancel₀ _ hmod]
  have key2 : (n / 10 ^ p) * 10 ^ p + n % 10 ^ p = n := by
    rw [Nat.mul_comm]
    exact Nat.div_add_mod n (10 ^ p)
  exact_mod_cast key2

/-- On a nonnegative rational exactly representable with `p` decimal
digits, formatting then parsing is the identity. -/
theorem parseFloat_fmtF_exact (p : ℕ) (q : ℚ) (hp : 1 ≤ p) (h0 : 0 ≤ q)
    (hden : (q * 10 ^ p).den = 1) : parseFloat (fmtF p q) = some q := by
  rw [parseFloat_fmtF p q hp]
  obtain ⟨m, hm⟩ : ∃ m : ℤ, q * 10 ^ p = (m : ℚ) := by
    refine ⟨(q * 10 ^ p).num, ?_⟩
    conv_lhs => rw [← Rat.num_div_den (q * 10 ^ p)]
    rw [hden]
    simp
  have hm0 : 0 ≤ m := by
    have hq : (0 : ℚ) ≤ (m : ℚ) := by
      rw [← hm]
      positivity
    exact_mod_cast hq
  have hfl : Int.floor (q * 10 ^ p + 1 / 2) = m := by
    rw [hm]
    rw [Int.floor_eq_iff]
    constructor
    · linarith
    · linarith
  rw [hfl]
  have hcast : ((m.toNat : ℕ) : ℚ) = ((m : ℤ) : ℚ) := by
    exact_mod_cast Int.toNat_of_nonneg hm0
  rw [hcast, ← hm]
  field_simp

theorem manualClipsFrom_closed (D k : ℕ) :
    manualClipsFrom D (149 * k) =
      (List.range ((D - 149 * k + 148) / 149)).map
        (fun j => (149 * (k + j), min (149 * (k + j) + 149) D)) := by
  generalize hm : (D - 149 * k + 148) / 149 = m
  induction m generalizing k with
  | zero =>
    rw [manualClipsFrom, if_neg (by omega)]
    simp
  | succ m ih =>
    have hlt : 149 * k < D := by omega
    rw [manualClipsFrom, if_pos hlt]
    have hnext : 149 * k + 149 = 149 * (k + 1) := by ring
    rw [hnext, ih (k + 1) (by omega)]
    rw [List.range_succ_eq_map, List.map_cons, List.map_map]
    congr 1
    apply List.map_congr_left
    intro j hj
    simp only [Function.comp_apply]
    have hkj : k + 1 + j = k + (j + 1) := by omega
    rw [hkj]

theorem createManualClips_eq (D : ℕ) :
    createManualClips D =
      (List.range ((D + 148) / 149)).map
        (fun j => (149 * j, min (149 * j + 149) D)) := by
  have h := manualClipsFrom_closed D 0
  simp only [Nat.mul_zero, Nat.zero_add, Nat.sub_zero] at h
  exact h

theorem createManualClips_getElem (D j : ℕ) (hj : j < (D + 148) / 149) :
    (createManualClips D)[j]? = some (149 * j, min (149 * j + 149) D) := by
  rw [createManualClips_eq, List.getElem?_map, List.getElem?_range hj]
  rfl

theorem createManualClips_length (D : ℕ) :
    (createManualClips D).length = (D + 148) / 149 := by
  rw [createManualClips_eq]
  simp

theorem createManualClips_mem (D : ℕ) (p : ℕ × ℕ) :
    p ∈ createManualClips D ↔
      ∃ j < (D + 148) / 149, p = (149 * j, min (149 * j + 149) D) := by
  rw [createManualClips_eq]
  simp only [List.mem_map, List.mem_range]
  constructor
  · rintro ⟨j, hj, rfl⟩
    exact ⟨j, hj, rfl⟩
  · rintro ⟨j, hj, rfl⟩
    exact ⟨j, hj, rfl⟩

/-- C4: for every video whose probed integer duration `D` is positive
and with no supplied highlight windows, `_create_manual_clips` produces
exactly `⌈D/149⌉` segments; segment `i` (1-based) spans
`[149*(i-1), min (149*i) D)`; the segments are pairwise non-overlapping,
cover `[0, D)` exactly, and the last one has length `D - 149*(n-1)`. -/
theorem C4_fallback_segmentation (D : ℕ) (hD : 0 < D) : SegmentationSpec D := by
  have hceil1 : D ≤ 149 * ((D + 148) / 149) := by omega
  have hn1 : 1 ≤ (D + 148) / 149 := by omega
  refine ⟨createManualClips_length D, hceil1, by omega, ?_, ?_, ?_, ?_⟩
  · intro i h1 h2
    rw [createManualClips_getElem D (i - 1) (by omega)]
    have h149 : 149 * (i - 1) + 149 = 149 * i := by omega
    rw [h149]
  · intro p q hp hq hne
    obtain ⟨j, hj, rfl⟩ := (createManualClips_mem D p).1 hp
    obtain ⟨j2, hj2, rfl⟩ := (createManualClips_mem D q).1 hq
    have hjne : j ≠ j2 := by
      rintro rfl
      exact hne rfl
    have hminj := min_le_left (149 * j + 149) D
    have hminj2 := min_le_left (149 * j2 + 149) D
    rcases Nat.lt_or_ge j j2 with hlt | hge
    · left
      simp only
      omega
    · right
      simp only
      omega
  · intro t
    constructor
    · intro ht
      refine ⟨(149 * (t / 149), min (149 * (t / 149) + 149) D), ?_, ?_, ?_⟩
      · exact (createManualClips_mem D _).2 ⟨t / 149, by omega, rfl⟩
      · simp only
        omega
      · simp only
        exact lt_min (by omega) ht
    · rintro ⟨p, hp, hp1, hp2⟩
      obtain ⟨j, hj, rfl⟩ := (createManualClips_mem D p).1 hp
      simp only at hp1 hp2
      have := min_le_right (149 * j + 149) D
      omega
  · refine ⟨(149 * ((D + 148) / 149 - 1),
      min (149 * ((D + 148) / 149 - 1) + 149) D), ?_, ?_, ?_⟩
    · exact createManualClips_getElem D _ (by omega)
    · simp only
      exact min_eq_right (by omega)
    · simp only
      rw [min_eq_right (by omega)]

/-- Witness for C4 at the spec's end-to-end example duration `D = 300`. -/
theorem C4_fallback_segmentation_witness : 0 < 300 ∧ SegmentationSpec 300 :=
  ⟨by decide, C4_fallback_segmentation 300 (by decide)⟩

theorem fmtF_of_natCast (p m : ℕ) (q : ℚ) (h : q * 10 ^ p = (m : ℚ)) :
    fmtF p q = natToChars (m / 10 ^ p) ++ ['.'] ++ padZeros p (natToChars (m % 10 ^ p)) := by
  have hfl : Int.floor (q * 10 ^ p + 1 / 2) = (m : ℤ) := by
    rw [h]
    rw [show ((m : ℚ)) = ((m : ℤ) : ℚ) by push_cast; rfl]
    rw [Int.floor_int_add]
    have h2 : Int.floor ((1 : ℚ) / 2) = 0 := by
      rw [Int.floor_eq_zero_iff]
      constructor <;> norm_num
    rw [h2, Int.add_zero]
  simp only [fmtF, hfl, Int.toNat_natCast]

theorem parseFloat_eval (xs a b : List Char) (ia ib : ℕ)
    (hs : pySplit ['.'] xs = [a, b]) (hne : ¬(a = [] ∧ b = []))
    (hia : parseDigitsFrom 0 a = some ia) (hib : parseDigitsFrom 0 b = some ib) :
    parseFloat xs = some ((ia : ℚ) + (ib : ℚ) / 10 ^ b.length) := by
  simp only [parseFloat, hs, if_neg hne, hia, hib]

theorem parseClipEndTime_eval (f part : List Char) (q : ℚ)
    (h1 : (pySplit (chars "_to_") f)[1]? = some part)
    (h2 : parseFloat ((pySplit (chars "s.mp4") part).flatten) = some q) :
    parseClipEndTime f = some q := by
  simp only [parseClipEndTime, h1]
  exact h2

theorem isDuplicateMoment_nil (m : Moment) (clipStartTime clipEndTime : ℚ) :
    isDuplicateMoment m [] clipStartTime clipEndTime = false := by
  simp [isDuplicateMoment]

/-- Clip end time parsed from the clip filename used throughout the
concrete instances. -/
theorem parseClipEndTime_a9 :
    parseClipEndTime (chars "video_a_clip_001_0.0s_to_9.0s.mp4") = some 9 := by
  apply parseClipEndTime_eval _ (chars "9.0s.mp4")
  · decide
  · have h3 : (pySplit (chars "s.mp4") (chars "9.0s.mp4")).flatten = chars "9.0" := by decide
    rw [h3]
    have h6 := parseFloat_eval (chars "9.0") (chars "9") (chars "0") 9 0 (by decide)
      (by decide) (by decide) (by decide)
    rw [h6]
    norm_num

/-- Control-flow characterisation of an accepted candidate: whenever
`_process_predictions` returns a single moment, that moment carries the
translated absolute times, the top window's confidence, the encoded
filename with ordinal `len(existing)+1`, was appended to
`existing_moments`, and exactly one trim ran. -/
theorem processPredictions_accepted
    (trim : List Char → ℚ → ℚ → List Char → Bool)
    (videoId clipPath : List Char) (existing : List Moment) (clipStartTime : ℚ)
    (relStart relEnd confidence : ℚ) (rest : List (ℚ × ℚ × ℚ)) (pp : PPResult)
    (m : Moment)
    (hrun : processPredictions trim (some ((relStart, relEnd, confidence) :: rest))
      videoId clipPath existing clipStartTime = some pp)
    (hm : pp.moments = [m]) :
    m.startTime = relStart + clipStartTime ∧ m.endTime = relEnd + clipStartTime ∧
      m.confidence = confidence ∧
      m.filename = momentName videoId (existing.length + 1) (relStart + clipStartTime)
        (relEnd + clipStartTime) confidence ∧
      pp.existing = existing ++ [m] ∧ pp.trimCalls = 1 := by
  simp only [processPredictions] at hrun
  split at hrun
  · rw [Option.some_inj] at hrun
    subst hrun
    simp at hm
  · split at hrun
    · exact absurd hrun (by simp)
    · split at hrun
      · rw [Option.some_inj] at hrun
        subst hrun
        simp at hm
      · split at hrun
        · rw [Option.some_inj] at hrun
          subst hrun
          simp only [PPResult.moments] at hm
          rw [List.cons_eq_cons] at hm
          obtain ⟨rfl, -⟩ := hm
          refine ⟨rfl, rfl, rfl, rfl, rfl, rfl⟩
        · rw [Option.some_inj] at hrun
          subst hrun
          simp at hm

/-- C1: for every prediction whose top-ranked window has confidence
strictly below 0.75, `_process_predictions` returns no moment (and
neither touches the history nor calls trim); a top window with
confidence exactly 0.75 is not rejected by the threshold check (on a
clean clip it is accepted), and one with confidence 0.7499 is
rejected. -/
theorem C1_confidence_gate :
    (∀ (trim : List Char → ℚ → ℚ → List Char → Bool)
      (videoId clipPath : List Char) (existing : List Moment) (clipStartTime : ℚ)
      (relStart relEnd confidence : ℚ) (rest : List (ℚ × ℚ × ℚ)),
      confidence < 0.75 →
      processPredictions trim (some ((relStart, relEnd, confidence) :: rest)) videoId
        clipPath existing clipStartTime = some ⟨[], existing, 0, none⟩) ∧
    processPredictions (fun _ _ _ _ => true) (some [(1, 2, 0.75)]) (chars "a")
        (chars "video_a_clip_001_0.0s_to_9.0s.mp4") [] 0 =
      some ⟨[⟨1, 2, 0.75, momentName (chars "a") 1 1 2 0.75⟩],
        [⟨1, 2, 0.75, momentName (chars "a") 1 1 2 0.75⟩], 1, some []⟩ ∧
    processPredictions (fun _ _ _ _ => true) (some [(1, 2, 7499 / 10000)]) (chars "a")
        (chars "video_a_clip_001_0.0s_to_9.0s.mp4") [] 0 =
      some ⟨[], [], 0, none⟩ := by
  refine ⟨?_, ?_, ?_⟩
  · intro trim videoId clipPath existing clipStartTime relStart relEnd confidence rest hconf
    simp only [processPredictions, if_pos hconf]
  · simp only [processPredictions, if_neg (by norm_num : ¬ (0.75 : ℚ) < 0.75),
      parseClipEndTime_a9, isDuplicateMoment_nil, Bool.false_eq_true, if_false, if_true]
    norm_num [momentName]
  · simp only [processPredictions, if_pos (by norm_num : (7499 / 10000 : ℚ) < 0.75)]

/-- Witness for C1's universal part: a window with confidence 0.5 is
dropped. -/
theorem C1_confidence_gate_witness :
    processPredictions (fun _ _ _ _ => true) (some [(1, 2, 1 / 2)]) (chars "a")
      (chars "video_a_clip_001_0.0s_to_9.0s.mp4") [] 0 = some ⟨[], [], 0, none⟩ :=
  C1_confidence_gate.1 (fun _ _ _ _ => true) (chars "a")
    (chars "video_a_clip_001_0.0s_to_9.0s.mp4") [] 0 1 2 (1 / 2) [] (by norm_num)

/-- C2: `_is_duplicate_moment` returns true exactly when some existing
moment lies inside the clip bounds (`start_time >= clip_start_time` and
`end_time <= clip_end_time`) and its overlap with the candidate lasts
strictly longer than half the candidate's own duration. -/
theorem C2_duplicate_predicate (m : Moment) (existing : List Moment)
    (clipStartTime clipEndTime : ℚ) :
    isDuplicateMoment m existing clipStartTime clipEndTime = true ↔
      ∃ e ∈ existing, e.startTime ≥ clipStartTime ∧ e.endTime ≤ clipEndTime ∧
        max 0 (min m.endTime e.endTime - max m.startTime e.startTime) >
          0.5 * (m.endTime - m.startTime) := by
  simp only [isDuplicateMoment, List.any_eq_true, List.mem_filter, Bool.and_eq_true,
    decide_eq_true_eq]
  constructor
  · rintro ⟨e, ⟨he, h1, h2⟩, h3⟩
    exact ⟨e, he, h1, h2, h3⟩
  · rintro ⟨e, he, h1, h2, h3⟩
    exact ⟨e, ⟨he, h1, h2⟩, h3⟩

/-- C8: when a candidate passes the confidence gate and the duplicate
check but trim fails, `_process_predictions` returns no moment, leaves
the history untouched, and trim ran exactly once (hence at most once). -/
theorem C8_extraction_failure
    (trim : List Char → ℚ → ℚ → List Char → Bool)
    (videoId clipPath : List Char) (existing : List Moment) (clipStartTime : ℚ)
    (relStart relEnd confidence clipEndTime : ℚ) (rest : List (ℚ × ℚ × ℚ))
    (hconf : ¬ confidence < 0.75)
    (hparse : parseClipEndTime clipPath = some clipEndTime)
    (hdup : isDuplicateMoment ⟨relStart + clipStartTime, relEnd + clipStartTime,
      confidence, []⟩ existing clipStartTime clipEndTime = false)
    (htrim : trim clipPath relStart relEnd (momentName videoId (existing.length + 1)
      (relStart + clipStartTime) (relEnd + clipStartTime) confidence) = false) :
    processPredictions trim (some ((relStart, relEnd, confidence) :: rest)) videoId
      clipPath existing clipStartTime = some ⟨[], existing, 1, some existing⟩ := by
  simp only [processPredictions, if_neg hconf, hparse, hdup, htrim, Bool.false_eq_true,
    if_false]

/-- Witness for C8: failing trim oracle on a clean 0.8-confidence
candidate. -/
theorem C8_extraction_failure_witness :
    processPredictions (fun _ _ _ _ => false) (some [(1, 2, 8 / 10)]) (chars "a")
      (chars "video_a_clip_001_0.0s_to_9.0s.mp4") [] 0 = some ⟨[], [], 1, some []⟩ :=
  C8_extraction_failure (fun _ _ _ _ => false) (chars "a")
    (chars "video_a_clip_001_0.0s_to_9.0s.mp4") [] 0 1 2 (8 / 10) 9 []
    (by norm_num) parseClipEndTime_a9 (isDuplicateMoment_nil _ _ _) rfl

/-- Clip end time of the clip-2 filename of the spec's end-to-end
example. -/
theorem parseClipEndTime_abc298 :
    parseClipEndTime (chars "video_abc_clip_002_149.0s_to_298.0s.mp4") = some 298 := by
  apply parseClipEndTime_eval _ (chars "298.0s.mp4")
  · decide
  · have h3 : (pySplit (chars "s.mp4") (chars "298.0s.mp4")).flatten = chars "298.0" := by
      decide
    rw [h3]
    have h6 := parseFloat_eval (chars "298.0") (chars "298") (chars "0") 298 0 (by decide)
      (by decide) (by decide) (by decide)
    rw [h6]
    norm_num

/-- Clip end time of the short final clip `[298, 300)`. -/
theorem parseClipEndTime_a300 :
    parseClipEndTime (chars "video_a_clip_003_298.0s_to_300.0s.mp4") = some 300 := by
  apply parseClipEndTime_eval _ (chars "300.0s.mp4")
  · decide
  · have h3 : (pySplit (chars "s.mp4") (chars "300.0s.mp4")).flatten = chars "300.0" := by
      decide
    rw [h3]
    have h6 := parseFloat_eval (chars "300.0") (chars "300") (chars "0") 300 0 (by decide)
      (by decide) (by decide) (by decide)
    rw [h6]
    norm_num

/-- Moment filename of the spec's end-to-end example, fully
rendered. -/
theorem momentName_abc :
    momentName (chars "abc") 1 159 169 (9 / 10) =
      chars "video_abc_moment_001_159.0s_to_169.0s_conf_0.90.mp4" := by
  have h1 : fmtF 1 159 = chars "159.0" := by
    rw [fmtF_of_natCast 1 1590 159 (by norm_num)]
    decide
  have h2 : fmtF 1 169 = chars "169.0" := by
    rw [fmtF_of_natCast 1 1690 169 (by norm_num)]
    decide
  have h3 : fmtF 2 (9 / 10) = chars "0.90" := by
    rw [fmtF_of_natCast 2 90 (9 / 10) (by norm_num)]
    decide
  simp only [momentName, h1, h2, h3]
  decide

/-- Shared concrete accepted run: confidence 0.8, window `[1, 2)`
relative, clip `[0, 9)`, empty history, trim succeeding. -/
theorem processPredictions_accept08 :
    processPredictions (fun _ _ _ _ => true) (some [(1, 2, 8 / 10)]) (chars "a")
        (chars "video_a_clip_001_0.0s_to_9.0s.mp4") [] 0 =
      some ⟨[⟨1, 2, 8 / 10, momentName (chars "a") 1 1 2 (8 / 10)⟩],
        [⟨1, 2, 8 / 10, momentName (chars "a") 1 1 2 (8 / 10)⟩], 1, some []⟩ := by
  simp only [processPredictions, if_neg (by norm_num : ¬ (8 / 10 : ℚ) < 0.75),
    parseClipEndTime_a9, isDuplicateMoment_nil, Bool.false_eq_true, if_false, if_true]
  norm_num

/-- C5: an accepted moment's absolute times are
`abs_start = rel_start + clip.start_time` and
`abs_end = rel_end + clip.start_time`, and its file is named
`video_{video_id}_moment_{n:03d}_{abs_start:.1f}s_to_{abs_end:.1f}s_conf_{confidence:.2f}.mp4`
with `n = len(existing_moments) + 1`; in particular, for a clip starting
at 149.0 s with top window `(10, 20, 0.9)` and empty history, the
accepted moment spans `[159.0, 169.0)` with filename
`video_abc_moment_001_159.0s_to_169.0s_conf_0.90.mp4`. -/
theorem C5_absolute_times_and_filename :
    (∀ (trim : List Char → ℚ → ℚ → List Char → Bool)
      (videoId clipPath : List Char) (existing : List Moment) (clipStartTime : ℚ)
      (relStart relEnd confidence : ℚ) (rest : List (ℚ × ℚ × ℚ)) (pp : PPResult)
      (m : Moment),
      processPredictions trim (some ((relStart, relEnd, confidence) :: rest)) videoId
        clipPath existing clipStartTime = some pp →
      pp.moments = [m] →
      m.startTime = relStart + clipStartTime ∧ m.endTime = relEnd + clipStartTime ∧
        m.filename = momentName videoId (existing.length + 1) (relStart + clipStartTime)
          (relEnd + clipStartTime) confidence) ∧
    processPredictions (fun _ _ _ _ => true) (some [(10, 20, 9 / 10)]) (chars "abc")
        (chars "video_abc_clip_002_149.0s_to_298.0s.mp4") [] 149 =
      some ⟨[⟨159, 169, 9 / 10,
          chars "video_abc_moment_001_159.0s_to_169.0s_conf_0.90.mp4"⟩],
        [⟨159, 169, 9 / 10,
          chars "video_abc_moment_001_159.0s_to_169.0s_conf_0.90.mp4"⟩], 1, some []⟩ := by
  constructor
  · intro trim videoId clipPath existing clipStartTime relStart relEnd confidence rest pp
      m hrun hm
    obtain ⟨h1, h2, -, h4, -, -⟩ := processPredictions_accepted trim videoId clipPath
      existing clipStartTime relStart relEnd confidence rest pp m hrun hm
    exact ⟨h1, h2, h4⟩
  · simp only [processPredictions, if_neg (by norm_num : ¬ (9 / 10 : ℚ) < 0.75),
      parseClipEndTime_abc298, isDuplicateMoment_nil, Bool.false_eq_true, if_false,
      if_true]
    norm_num [momentName_abc]

/-- Witness for C5's universal part, at the shared 0.8-confidence
accepted run. -/
theorem C5_absolute_times_and_filename_witness :
    (Moment.mk 1 2 (8 / 10) (momentName (chars "a") 1 1 2 (8 / 10))).startTime = 1 + 0 ∧
      (Moment.mk 1 2 (8 / 10) (momentName (chars "a") 1 1 2 (8 / 10))).endTime = 2 + 0 ∧
      (Moment.mk 1 2 (8 / 10) (momentName (chars "a") 1 1 2 (8 / 10))).filename =
        momentName (chars "a") (List.length ([] : List Moment) + 1) (1 + 0) (2 + 0)
          (8 / 10) :=
  C5_absolute_times_and_filename.1 (fun _ _ _ _ => true) (chars "a")
    (chars "video_a_clip_001_0.0s_to_9.0s.mp4") [] 0 1 2 (8 / 10) [] _ _
    processPredictions_accept08 rfl

/-- C9 (amended): an accepted moment lies inside its owning clip's
absolute range provided the predictor's top window is nonnegative and
does not extend past the clip's duration; the code itself performs no
such validation. -/
theorem C9_moment_within_clip
    (trim : List Char → ℚ → ℚ → List Char → Bool)
    (videoId clipPath : List Char) (existing : List Moment)
    (clipStartTime clipEndTime : ℚ) (relStart relEnd confidence : ℚ)
    (rest : List (ℚ × ℚ × ℚ)) (pp : PPResult) (m : Moment)
    (hparse : parseClipEndTime clipPath = some clipEndTime)
    (hrel0 : 0 ≤ relStart) (hrel1 : relEnd ≤ clipEndTime - clipStartTime)
    (hrun : processPredictions trim (some ((relStart, relEnd, confidence) :: rest))
      videoId clipPath existing clipStartTime = some pp)
    (hm : pp.moments = [m]) :
    clipStartTime ≤ m.startTime ∧ m.endTime ≤ clipEndTime := by
  obtain ⟨h1, h2, -, -, -, -⟩ := processPredictions_accepted trim videoId clipPath
    existing clipStartTime relStart relEnd confidence rest pp m hrun hm
  constructor
  · rw [h1]
    linarith
  · rw [h2]
    linarith

/-- Witness for C9's amended statement at the shared 0.8-confidence
run. -/
theorem C9_moment_within_clip_witness :
    (0 : ℚ) ≤ (Moment.mk 1 2 (8 / 10) (momentName (chars "a") 1 1 2 (8 / 10))).startTime ∧
      (Moment.mk 1 2 (8 / 10) (momentName (chars "a") 1 1 2 (8 / 10))).endTime ≤ 9 :=
  C9_moment_within_clip (fun _ _ _ _ => true) (chars "a")
    (chars "video_a_clip_001_0.0s_to_9.0s.mp4") [] 0 9 1 2 (8 / 10) [] _ _
    parseClipEndTime_a9 (by norm_num) (by norm_num) processPredictions_accept08 rfl

/-- Counterexample to C9 as stated: on the final clip `[298, 300)` a
top window `(0, 10, 0.9)` is accepted unvalidated, producing a moment
ending at 308.0, outside the clip's range ending at 300.0. -/
theorem C9_moment_within_clip_counterexample :
    processPredictions (fun _ _ _ _ => true) (some [(0, 10, 9 / 10)]) (chars "a")
        (chars "video_a_clip_003_298.0s_to_300.0s.mp4") [] 298 =
      some ⟨[⟨298, 308, 9 / 10, momentName (chars "a") 1 298 308 (9 / 10)⟩],
        [⟨298, 308, 9 / 10, momentName (chars "a") 1 298 308 (9 / 10)⟩], 1, some []⟩ ∧
    parseClipEndTime (chars "video_a_clip_003_298.0s_to_300.0s.mp4") = some 300 ∧
    ¬ ((308 : ℚ) ≤ 300) := by
  refine ⟨?_, parseClipEndTime_a300, by norm_num⟩
  simp only [processPredictions, if_neg (by norm_num : ¬ (9 / 10 : ℚ) < 0.75),
    parseClipEndTime_a300, isDuplicateMoment_nil, Bool.false_eq_true, if_false, if_true]
  norm_num

theorem pySplitAux_ne_nil (sep : List Char) (fuel : ℕ) (acc xs : List Char) :
    pySplitAux sep fuel acc xs ≠ [] := by
  induction fuel generalizing acc xs with
  | zero => simp [pySplitAux]
  | succ f ih =>
    match xs with
    | [] => simp [pySplitAux]
    | x :: rest =>
      simp only [pySplitAux]
      split
      · simp
      · exact ih (x :: acc) rest

theorem pySplit_ne_nil (sep xs : List Char) : pySplit sep xs ≠ [] :=
  pySplitAux_ne_nil sep (xs.length + 1) [] xs

theorem pySplitAux_acc (sep : List Char) (fuel : ℕ) (acc ys : List Char)
    (h : ys.length < fuel) :
    pySplitAux sep fuel acc ys =
      (acc.reverse ++ (pySplitAux sep fuel [] ys).headD []) ::
        (pySplitAux sep fuel [] ys).tail := by
  induction fuel generalizing acc ys with
  | zero => omega
  | succ f ih =>
    match ys with
    | [] => simp [pySplitAux]
    | y :: rest =>
      by_cases hl : leadsWith sep (y :: rest) = true
      · simp [pySplitAux, if_pos hl]
      · simp only [pySplitAux, if_neg hl]
        rw [ih (y :: acc) rest (by simp at h; omega), ih [y] rest (by simp at h; omega)]
        simp

theorem pySplit_cons_ne (sep : List Char) (x : Char) (ys : List Char)
    (h : leadsWith sep (x :: ys) = false) :
    pySplit sep (x :: ys) =
      (x :: (pySplit sep ys).headD []) :: (pySplit sep ys).tail := by
  rw [pySplit, pySplit]
  have hx : pySplitAux sep (ys.length + 1 + 1) [] (x :: ys) =
      pySplitAux sep (ys.length + 1) [x] ys := by
    simp [pySplitAux, h]
  rw [show (x :: ys).length + 1 = ys.length + 1 + 1 by simp, hx,
    pySplitAux_acc sep (ys.length + 1) [x] ys (by omega)]
  simp

theorem pySplit_cons_sep (sep b : List Char) (hsep : sep ≠ []) :
    pySplit sep (sep ++ b) = [] :: pySplit sep b := by
  obtain ⟨s, ss, rfl⟩ : ∃ s ss, sep = s :: ss := by
    cases sep with
    | nil => exact absurd rfl hsep
    | cons s ss => exact ⟨s, ss, rfl⟩
  rw [pySplit, pySplit]
  have hl : leadsWith (s :: ss) ((s :: ss) ++ b) = true := leadsWith_append_self _ _
  have hx : (s :: ss) ++ b = s :: (ss ++ b) := by simp
  rw [hx] at hl ⊢
  generalize hf : (s :: (ss ++ b)).length + 1 = fuel
  match fuel with
  | f + 1 =>
    simp only [pySplitAux, if_pos hl]
    have hdrop : (ss ++ b).drop ((s :: ss).length - 1) = b := by
      simp only [List.length_cons, Nat.add_sub_cancel]
      exact List.drop_left ss b
    rw [hdrop, pySplitAux_fuel (s :: ss) f (b.length + 1) [] b (by simp at hf; omega)
      (by omega)]
    simp

theorem pySplit_append_noOccIn (sep a xs : List Char) (h : NoOccIn sep a xs) :
    pySplit sep (a ++ xs) =
      (a ++ (pySplit sep xs).headD []) :: (pySplit sep xs).tail := by
  induction a with
  | nil =>
    have hne := pySplit_ne_nil sep xs
    match hx : pySplit sep xs with
    | [] => exact absurd hx hne
    | p :: ps => simp
  | cons x a2 ih =>
    have h0 : leadsWith sep (x :: (a2 ++ xs)) = false := by
      have := h 0 (by simp)
      simpa using this
    rw [List.cons_append, pySplit_cons_ne sep x (a2 ++ xs) h0,
      ih (fun i hi => by
        have := h (i + 1) (by simp at hi ⊢; omega)
        simpa using this)]
    simp

theorem containsSub_false_of_noOccIn (sep xs : List Char) (hsep : sep ≠ [])
    (h : NoOccIn sep xs []) : containsSub sep xs = false := by
  rw [containsSub_eq_false_iff sep xs hsep]
  intro i
  rcases Nat.lt_or_ge i xs.length with hlt | hge
  · have := h i hlt
    simpa using this
  · rw [List.drop_eq_nil_of_le hge]
    obtain ⟨s, ss, rfl⟩ : ∃ s ss, sep = s :: ss := by
      cases sep with
      | nil => exact absurd rfl hsep
      | cons s ss => exact ⟨s, ss, rfl⟩
    rfl

theorem not_mem_of_digits (l : List Char) (h : ∀ x ∈ l, x.isDigit = true) (c : Char)
    (hc : c.isDigit = false) : c ∉ l := by
  intro hm
  rw [h c hm] at hc
  exact absurd hc (by simp)

theorem padZeros_natToChars_cons (p m : ℕ) :
    ∃ b0 B, padZeros p (natToChars m) = b0 :: B ∧ b0.isDigit = true := by
  have hne : padZeros p (natToChars m) ≠ [] := by
    rw [padZeros]
    simp [natToChars_ne_nil]
  match hx : padZeros p (natToChars m) with
  | [] => exact absurd hx hne
  | b0 :: B =>
    refine ⟨b0, B, rfl, ?_⟩
    have := padZeros_chars p (natToChars m) (natToChars_isDigit m) b0
    rw [hx] at this
    exact this (by simp)

/-- Occurrences of `.mp4` can never start inside a formatted number:
its dot is always followed by a digit. -/
theorem noOccIn_fmtF_mp4 (p : ℕ) (q : ℚ) (t : List Char) :
    NoOccIn (chars ".mp4") (fmtF p q) t := by
  obtain ⟨b0, B, hB, hb0⟩ := padZeros_natToChars_cons p
    ((Int.floor (q * 10 ^ p + 1 / 2)).toNat % 10 ^ p)
  have hform : fmtF p q =
      natToChars ((Int.floor (q * 10 ^ p + 1 / 2)).toNat / 10 ^ p) ++
        (['.'] ++ (b0 :: B)) := by
    rw [fmtF, hB]
    simp
  rw [hform]
  apply noOccIn_append
  · apply noOccIn_head '.' (chars "mp4")
    intro x hx
    exact (isDigit_ne x (natToChars_isDigit _ x hx)).2.2.2.1
  · apply noOccIn_append
    · rw [show (b0 :: B) ++ t = b0 :: (B ++ t) by simp]
      apply noOccIn_pair '.' 'm' (chars "p4") '.' b0 (B ++ t)
      right
      intro hb
      rw [hb] at hb0
      exact absurd hb0 (by decide)
    · apply noOccIn_head '.' (chars "mp4")
      intro x hx
      have hdig : x.isDigit = true := by
        have h2 := padZeros_chars p
          (natToChars ((Int.floor (q * 10 ^ p + 1 / 2)).toNat % 10 ^ p))
          (natToChars_isDigit _) x
        rw [hB] at h2
        exact h2 hx
      exact (isDigit_ne x hdig).2.2.2.1

theorem containsSub_mp4_fmtF (p : ℕ) (q : ℚ) :
    containsSub (chars ".mp4") (fmtF p q) = false :=
  containsSub_false_of_noOccIn _ _ (by decide) (noOccIn_fmtF_mp4 p q [])

theorem pySplit_mp4_nil : pySplit (chars ".mp4") (chars ".mp4") = [[], []] := by
  have h0 := pySplit_cons_sep (chars ".mp4") [] (by decide)
  rw [show chars ".mp4" ++ ([] : List Char) = chars ".mp4" from by simp] at h0
  rw [h0, show pySplit (chars ".mp4") [] = [[]] from rfl]

theorem pySplit_mp4_clipName (id : List Char) (i : ℕ) (s e : ℚ)
    (hid2 : containsSub (chars ".mp4") id = false) :
    pySplit (chars ".mp4") (clipName (chars "video_" ++ id) i s e) =
      [chars "video_" ++ id ++ chars "_clip_" ++ pad3 i ++ chars "_" ++ fmtF 1 s ++
        chars "s_to_" ++ fmtF 1 e ++ chars "s", []] := by
  have hform : clipName (chars "video_" ++ id) i s e =
      chars "video_" ++ (id ++ (chars "_clip_" ++ (pad3 i ++ (chars "_" ++ (fmtF 1 s ++
        (chars "s_to_" ++ (fmtF 1 e ++ (chars "s" ++ chars ".mp4")))))))) := by
    rw [clipName, show chars "s.mp4" = chars "s" ++ chars ".mp4" from rfl]
    simp [List.append_assoc]
  rw [hform]
  rw [pySplit_append_noOccIn (chars ".mp4") (chars "video_") _
    (noOccIn_head '.' (chars "mp4") _ _ (by decide))]
  have hno : NoOccIn (chars ".mp4") id (chars "_clip_" ++ (pad3 i ++ (chars "_" ++
      (fmtF 1 s ++ (chars "s_to_" ++ (fmtF 1 e ++ (chars "s" ++ chars ".mp4"))))))) :=
    noOccIn_not_contains (chars ".mp4") id '_' _ (by decide) hid2 (by decide)
  rw [pySplit_append_noOccIn (chars ".mp4") id _ hno]
  rw [pySplit_append_noOccIn (chars ".mp4") (chars "_clip_") _
    (noOccIn_head '.' (chars "mp4") _ _ (by decide))]
  rw [pySplit_append_noOccIn (chars ".mp4") (pad3 i) _
    (noOccIn_head '.' (chars "mp4") _ _
      (fun x hx => (isDigit_ne x (pad3_chars i x hx)).2.2.2.1))]
  rw [pySplit_append_noOccIn (chars ".mp4") (chars "_") _
    (noOccIn_head '.' (chars "mp4") _ _ (by decide))]
  rw [pySplit_append_noOccIn (chars ".mp4") (fmtF 1 s) _ (noOccIn_fmtF_mp4 1 s _)]
  rw [pySplit_append_noOccIn (chars ".mp4") (chars "s_to_") _
    (noOccIn_head '.' (chars "mp4") _ _ (by decide))]
  rw [pySplit_append_noOccIn (chars ".mp4") (fmtF 1 e) _ (noOccIn_fmtF_mp4 1 e _)]
  rw [pySplit_append_noOccIn (chars ".mp4") (chars "s") _
    (noOccIn_head '.' (chars "mp4") _ _ (by decide))]
  rw [pySplit_mp4_nil]
  simp [List.append_assoc]

theorem fmtF_mem_ne (p : ℕ) (q : ℚ) (c : Char) (h1 : c.isDigit = false)
    (h2 : c ≠ '.') : ∀ x ∈ fmtF p q, x ≠ c := by
  intro x hx heq
  rcases fmtF_chars p q x hx with hd | hdot
  · rw [heq] at hd
    rw [hd] at h1
    exact absurd h1 (by simp)
  · rw [hdot] at heq
    exact h2 heq.symm

theorem pySplit_us_preClip (id : List Char) (i : ℕ) (s e : ℚ) (hid1 : '_' ∉ id) :
    pySplit (chars "_") (chars "video_" ++ id ++ chars "_clip_" ++ pad3 i ++ chars "_" ++
        fmtF 1 s ++ chars "s_to_" ++ fmtF 1 e ++ chars "s") =
      [chars "video", id, chars "clip", pad3 i, fmtF 1 s ++ chars "s", chars "to",
        fmtF 1 e ++ chars "s"] := by
  have hform : chars "video_" ++ id ++ chars "_clip_" ++ pad3 i ++ chars "_" ++
      fmtF 1 s ++ chars "s_to_" ++ fmtF 1 e ++ chars "s" =
      chars "video" ++ (chars "_" ++ (id ++ (chars "_" ++ (chars "clip" ++ (chars "_" ++
        (pad3 i ++ (chars "_" ++ (fmtF 1 s ++ (chars "s" ++ (chars "_" ++ (chars "to" ++
          (chars "_" ++ (fmtF 1 e ++ chars "s"))))))))))))) := by
    rw [show chars "video_" = chars "video" ++ chars "_" from rfl,
      show chars "_clip_" = chars "_" ++ chars "clip" ++ chars "_" from rfl,
      show chars "s_to_" = chars "s" ++ chars "_" ++ chars "to" ++ chars "_" from rfl]
    simp [List.append_assoc]
  rw [hform]
  rw [pySplit_append_noOccIn (chars "_") (chars "video") _
    (noOccIn_head '_' [] _ _ (by decide))]
  rw [pySplit_cons_sep (chars "_") _ (by decide)]
  rw [pySplit_append_noOccIn (chars "_") id _
    (noOccIn_head '_' [] _ _ (fun x hx heq => hid1 (heq ▸ hx)))]
  rw [pySplit_cons_sep (chars "_") _ (by decide)]
  rw [pySplit_append_noOccIn (chars "_") (chars "clip") _
    (noOccIn_head '_' [] _ _ (by decide))]
  rw [pySplit_cons_sep (chars "_") _ (by decide)]
  rw [pySplit_append_noOccIn (chars "_") (pad3 i) _
    (noOccIn_head '_' [] _ _ (fun x hx => (isDigit_ne x (pad3_chars i x hx)).1))]
  rw [pySplit_cons_sep (chars "_") _ (by decide)]
  rw [pySplit_append_noOccIn (chars "_") (fmtF 1 s) _
    (noOccIn_head '_' [] _ _ (fmtF_mem_ne 1 s '_' (by decide) (by decide)))]
  rw [pySplit_append_noOccIn (chars "_") (chars "s") _
    (noOccIn_head '_' [] _ _ (by decide))]
  rw [pySplit_cons_sep (chars "_") _ (by decide)]
  rw [pySplit_append_noOccIn (chars "_") (chars "to") _
    (noOccIn_head '_' [] _ _ (by decide))]
  rw [pySplit_cons_sep (chars "_") _ (by decide)]
  rw [pySplit_append_noOccIn (chars "_") (fmtF 1 e) _
    (noOccIn_head '_' [] _ _ (fmtF_mem_ne 1 e '_' (by decide) (by decide)))]
  rw [pySplit_no_occ (chars "_") (chars "s") (noOccIn_head '_' [] _ _ (by decide))]
  simp [List.append_assoc]

theorem dropLast_append_single (l : List Char) (c : Char) : (l ++ [c]).dropLast = l := by
  simp

/-- Round trip of the clip-cache reader of `process_video`: fields 4
and 6 of the underscore-split recover the rendered start and end
times. -/
theorem parseClipFile_clipName (id : List Char) (i : ℕ) (s e : ℚ)
    (hid1 : '_' ∉ id) (hid2 : containsSub (chars ".mp4") id = false)
    (hs0 : 0 ≤ s) (hs1 : (s * 10).den = 1) (he0 : 0 ≤ e) (he1 : (e * 10).den = 1) :
    parseClipFile (clipName (chars "video_" ++ id) i s e) = some (s, e) := by
  have h4 : ([chars "video", id, chars "clip", pad3 i, fmtF 1 s ++ chars "s",
      chars "to", fmtF 1 e ++ chars "s"] : List (List Char))[4]? =
      some (fmtF 1 s ++ chars "s") := rfl
  have h6 : ([chars "video", id, chars "clip", pad3 i, fmtF 1 s ++ chars "s",
      chars "to", fmtF 1 e ++ chars "s"] : List (List Char))[6]? =
      some (fmtF 1 e ++ chars "s") := rfl
  have hps : parseFloat ((fmtF 1 s ++ chars "s").dropLast) = some s := by
    rw [show chars "s" = ['s'] from rfl, dropLast_append_single]
    exact parseFloat_fmtF_exact 1 s (by norm_num) hs0 (by rw [pow_one]; exact hs1)
  have hpe : parseFloat ((fmtF 1 e ++ chars "s").dropLast) = some e := by
    rw [show chars "s" = ['s'] from rfl, dropLast_append_single]
    exact parseFloat_fmtF_exact 1 e (by norm_num) he0 (by rw [pow_one]; exact he1)
  simp only [parseClipFile, pySplit_mp4_clipName id i s e hid2, List.headD_cons,
    pySplit_us_preClip id i s e hid1, h4, h6, Option.pure_def, Option.bind_eq_bind,
    Option.some_bind, hps, hpe]

theorem fmtF_cons (p : ℕ) (q : ℚ) :
    ∃ f0 F, fmtF p q = f0 :: F ∧ f0.isDigit = true := by
  have hA := natToChars_ne_nil ((Int.floor (q * 10 ^ p + 1 / 2)).toNat / 10 ^ p)
  match hy : natToChars ((Int.floor (q * 10 ^ p + 1 / 2)).toNat / 10 ^ p) with
  | [] => exact absurd hy hA
  | y :: ys =>
    refine ⟨y, ys ++ ['.'] ++
      padZeros p (natToChars ((Int.floor (q * 10 ^ p + 1 / 2)).toNat % 10 ^ p)), ?_, ?_⟩
    · rw [fmtF, hy]
      simp
    · exact natToChars_isDigit ((Int.floor (q * 10 ^ p + 1 / 2)).toNat / 10 ^ p) y
        (by rw [hy]; simp)

theorem leadsWith_clip_boundary (id T : List Char) (h1 : '_' ∉ id)
    (h3 : id ≠ chars "clip") :
    leadsWith (chars "_clip_") ('_' :: (id ++ (chars "_clip_" ++ T))) = false := by
  rw [show chars "_clip_" = '_' :: 'c' :: 'l' :: 'i' :: 'p' :: ['_'] from rfl]
  simp only [leadsWith, decide_eq_true_eq, Bool.and_eq_true, Bool.true_and]
  match id with
  | [] => simp [leadsWith]
  | [a] =>
    simp only [List.singleton_append, List.cons_append, leadsWith]
    by_cases ha : 'c' = a <;> simp [ha, leadsWith]
  | [a, b] =>
    simp only [List.cons_append, List.nil_append, leadsWith]
    by_cases ha : 'c' = a <;> by_cases hb : 'l' = b <;> simp [ha, hb, leadsWith]
  | [a, b, c2] =>
    simp only [List.cons_append, List.nil_append, leadsWith]
    by_cases ha : 'c' = a <;> by_cases hb : 'l' = b <;> by_cases hc : 'i' = c2 <;>
      simp [ha, hb, hc, leadsWith]
  | [a, b, c2, d] =>
    simp only [List.cons_append, List.nil_append, leadsWith]
    have hne : ¬('c' = a ∧ 'l' = b ∧ 'i' = c2 ∧ 'p' = d) := by
      rintro ⟨rfl, rfl, rfl, rfl⟩
      exact h3 rfl
    by_cases ha : 'c' = a <;> by_cases hb : 'l' = b <;> by_cases hc : 'i' = c2 <;>
      by_cases hd : 'p' = d <;> simp [ha, hb, hc, hd, leadsWith] <;> tauto
  | a :: b :: c2 :: d :: e2 :: rest =>
    simp only [List.cons_append, leadsWith]
    have he2 : ¬('_' = e2) := by
      rintro rfl
      exact h1 (by simp)
    by_cases ha : 'c' = a <;> by_cases hb : 'l' = b <;> by_cases hc : 'i' = c2 <;>
      by_cases hd : 'p' = d <;> simp [ha, hb, hc, hd, he2, leadsWith]

theorem leadsWith_head_false (c0 : Char) (ss : List Char) (x : Char) (ys : List Char)
    (h : x ≠ c0) : leadsWith (c0 :: ss) (x :: ys) = false := by
  simp [leadsWith, Ne.symm h]

theorem leadsWith_pair_false (c0 c1 : Char) (ss : List Char) (x d : Char)
    (t : List Char) (h : x ≠ c0 ∨ d ≠ c1) :
    leadsWith (c0 :: c1 :: ss) (x :: d :: t) = false := by
  rcases h with h | h
  · simp [leadsWith, Ne.symm h]
  · simp [leadsWith, Ne.symm h]

theorem leadsWith_snd_fmtF (c0 c1 : Char) (ss : List Char) (p : ℕ) (q : ℚ)
    (R : List Char) (hc1 : c1.isDigit = false) :
    leadsWith (c0 :: c1 :: ss) (c0 :: (fmtF p q ++ R)) = false := by
  obtain ⟨f0, F, hf, hd⟩ := fmtF_cons p q
  rw [hf]
  show leadsWith (c0 :: c1 :: ss) (c0 :: f0 :: (F ++ R)) = false
  apply leadsWith_pair_false
  right
  intro he
  rw [he] at hd
  rw [hd] at hc1
  exact absurd hc1 (by simp)

theorem pySplit_clip_clipName (id : List Char) (i : ℕ) (s e : ℚ)
    (hid1 : '_' ∉ id) (hid3 : id ≠ chars "clip") :
    pySplit (chars "_clip_") (clipName (chars "video_" ++ id) i s e) =
      [chars "video" ++ '_' :: id,
        pad3 i ++ '_' :: (fmtF 1 s ++ 's' :: '_' ::
          (chars "to" ++ '_' :: (fmtF 1 e ++ 's' :: chars ".mp4")))] := by
  have hform : clipName (chars "video_" ++ id) i s e =
      chars "video" ++ ('_' :: (id ++ (chars "_clip_" ++ (pad3 i ++ ('_' ::
        (fmtF 1 s ++ ('s' :: ('_' :: (chars "to" ++ ('_' ::
          (fmtF 1 e ++ ('s' :: chars ".mp4")))))))))))) := by
    rw [clipName]
    rw [show chars "video_" = chars "video" ++ ['_'] from rfl,
      show chars "s_to_" = 's' :: '_' :: 't' :: 'o' :: ['_'] from rfl,
      show chars "s.mp4" = 's' :: chars ".mp4" from rfl]
    simp [List.append_assoc]
    rfl
  rw [hform]
  rw [pySplit_append_noOccIn (chars "_clip_") (chars "video") _
    (noOccIn_head '_' (chars "clip_") _ _ (by decide))]
  rw [pySplit_cons_ne (chars "_clip_") '_' _ (leadsWith_clip_boundary id _ hid1 hid3)]
  rw [pySplit_append_noOccIn (chars "_clip_") id _
    (noOccIn_head '_' (chars "clip_") _ _ (fun x hx heq => hid1 (heq ▸ hx)))]
  rw [pySplit_cons_sep (chars "_clip_") _ (by decide)]
  rw [pySplit_append_noOccIn (chars "_clip_") (pad3 i) _
    (noOccIn_head '_' (chars "clip_") _ _
      (fun x hx => (isDigit_ne x (pad3_chars i x hx)).1))]
  rw [pySplit_cons_ne (chars "_clip_") '_' _
    (leadsWith_snd_fmtF '_' 'c' (chars "lip_") 1 s _ (by decide))]
  rw [pySplit_append_noOccIn (chars "_clip_") (fmtF 1 s) _
    (noOccIn_head '_' (chars "clip_") _ _ (fmtF_mem_ne 1 s '_' (by decide) (by decide)))]
  rw [pySplit_cons_ne (chars "_clip_") 's' _ (leadsWith_head_false '_' _ 's' _ (by decide))]
  rw [pySplit_cons_ne (chars "_clip_") '_' _
    (show leadsWith (chars "_clip_") ('_' :: (chars "to" ++ ('_' ::
        (fmtF 1 e ++ ('s' :: chars ".mp4"))))) = false from
      leadsWith_pair_false '_' 'c' (chars "lip_") '_' 't' _ (Or.inr (by decide)))]
  rw [pySplit_append_noOccIn (chars "_clip_") (chars "to") _
    (noOccIn_head '_' (chars "clip_") _ _ (by decide))]
  rw [pySplit_cons_ne (chars "_clip_") '_' _
    (leadsWith_snd_fmtF '_' 'c' (chars "lip_") 1 e _ (by decide))]
  rw [pySplit_append_noOccIn (chars "_clip_") (fmtF 1 e) _
    (noOccIn_head '_' (chars "clip_") _ _ (fmtF_mem_ne 1 e '_' (by decide) (by decide)))]
  rw [pySplit_cons_ne (chars "_clip_") 's' _ (leadsWith_head_false '_' _ 's' _ (by decide))]
  rw [pySplit_no_occ (chars "_clip_") (chars ".mp4")
    (noOccIn_head '_' (chars "clip_") _ _ (by decide))]
  simp [List.append_assoc]

theorem pySplit_mp4_tailClip (i : ℕ) (s e : ℚ) :
    pySplit (chars ".mp4") (pad3 i ++ '_' :: (fmtF 1 s ++ 's' :: '_' ::
        (chars "to" ++ '_' :: (fmtF 1 e ++ 's' :: chars ".mp4")))) =
      [pad3 i ++ '_' :: (fmtF 1 s ++ 's' :: '_' ::
        (chars "to" ++ '_' :: (fmtF 1 e ++ ['s']))), []] := by
  rw [pySplit_append_noOccIn (chars ".mp4") (pad3 i) _
    (noOccIn_head '.' (chars "mp4") _ _
      (fun x hx => (isDigit_ne x (pad3_chars i x hx)).2.2.2.1))]
  rw [pySplit_cons_ne (chars ".mp4") '_' _ (leadsWith_head_false '.' _ '_' _ (by decide))]
  rw [pySplit_append_noOccIn (chars ".mp4") (fmtF 1 s) _ (noOccIn_fmtF_mp4 1 s _)]
  rw [pySplit_cons_ne (chars ".mp4") 's' _ (leadsWith_head_false '.' _ 's' _ (by decide))]
  rw [pySplit_cons_ne (chars ".mp4") '_' _ (leadsWith_head_false '.' _ '_' _ (by decide))]
  rw [pySplit_append_noOccIn (chars ".mp4") (chars "to") _
    (noOccIn_head '.' (chars "mp4") _ _ (by decide))]
  rw [pySplit_cons_ne (chars ".mp4") '_' _ (leadsWith_head_false '.' _ '_' _ (by decide))]
  rw [pySplit_append_noOccIn (chars ".mp4") (fmtF 1 e) _ (noOccIn_fmtF_mp4 1 e _)]
  rw [pySplit_cons_ne (chars ".mp4") 's' _ (leadsWith_head_false '.' _ 's' _ (by decide))]
  rw [pySplit_mp4_nil]
  simp [List.append_assoc]

theorem pySplit_to_tailClip (i : ℕ) (s e : ℚ) :
    pySplit (chars "_to_") (pad3 i ++ '_' :: (fmtF 1 s ++ 's' :: '_' ::
        (chars "to" ++ '_' :: (fmtF 1 e ++ ['s'])))) =
      [pad3 i ++ '_' :: (fmtF 1 s ++ ['s']), fmtF 1 e ++ ['s']] := by
  rw [pySplit_append_noOccIn (chars "_to_") (pad3 i) _
    (noOccIn_head '_' (chars "to_") _ _
      (fun x hx => (isDigit_ne x (pad3_chars i x hx)).1))]
  rw [pySplit_cons_ne (chars "_to_") '_' _
    (leadsWith_snd_fmtF '_' 't' (chars "o_") 1 s _ (by decide))]
  rw [pySplit_append_noOccIn (chars "_to_") (fmtF 1 s) _
    (noOccIn_head '_' (chars "to_") _ _ (fmtF_mem_ne 1 s '_' (by decide) (by decide)))]
  rw [pySplit_cons_ne (chars "_to_") 's' _ (leadsWith_head_false '_' _ 's' _ (by decide))]
  rw [show ('_' :: (chars "to" ++ '_' :: (fmtF 1 e ++ ['s'])) : List Char) =
    chars "_to_" ++ (fmtF 1 e ++ ['s']) from rfl]
  rw [pySplit_cons_sep (chars "_to_") _ (by decide)]
  have hno : NoOccIn (chars "_to_") (fmtF 1 e ++ ['s']) [] :=
    noOccIn_append _ (fmtF 1 e) ['s'] []
      (noOccIn_head '_' (chars "to_") _ _ (fmtF_mem_ne 1 e '_' (by decide) (by decide)))
      (noOccIn_head '_' (chars "to_") _ _ (by decide))
  rw [pySplit_no_occ (chars "_to_") _ hno]
  simp [List.append_assoc]

theorem filter_startPart (i : ℕ) (s : ℚ) :
    (pad3 i ++ '_' :: (fmtF 1 s ++ ['s'])).filter (fun c => c ≠ 's') =
      pad3 i ++ '_' :: fmtF 1 s := by
  have h1 : (pad3 i).filter (fun c => !decide (c = 's')) = pad3 i :=
    List.filter_eq_self.2 (fun a ha => by simp [(isDigit_ne a (pad3_chars i a ha)).2.1])
  have h2 : (fmtF 1 s).filter (fun c => !decide (c = 's')) = fmtF 1 s :=
    List.filter_eq_self.2
      (fun a ha => by simp [fmtF_mem_ne 1 s 's' (by decide) (by decide) a ha])
  simp only [List.filter_append, List.filter_cons]
  simp [h1, h2]

theorem pySplit_us_startPart (i : ℕ) (s : ℚ) :
    pySplit (chars "_") (pad3 i ++ '_' :: fmtF 1 s) = [pad3 i, fmtF 1 s] := by
  rw [pySplit_append_noOccIn (chars "_") (pad3 i) _
    (noOccIn_head '_' [] _ _ (fun x hx => (isDigit_ne x (pad3_chars i x hx)).1))]
  rw [show ('_' :: fmtF 1 s : List Char) = chars "_" ++ fmtF 1 s from rfl]
  rw [pySplit_cons_sep (chars "_") _ (by decide)]
  rw [pySplit_no_occ (chars "_") (fmtF 1 s)
    (noOccIn_head '_' [] _ _ (fmtF_mem_ne 1 s '_' (by decide) (by decide)))]
  simp

/-- Round trip of `_get_clip_timestamps`: the start time is recovered
from a well-formed generated clip filename. -/
theorem getClipTimestamps_clipName (id : List Char) (i : ℕ) (s e : ℚ)
    (hid1 : '_' ∉ id) (hid3 : id ≠ chars "clip")
    (hs0 : 0 ≤ s) (hs1 : (s * 10).den = 1) :
    getClipTimestamps (clipName (chars "video_" ++ id) i s e) = s := by
  have h1 : (pySplit (chars "_clip_") (clipName (chars "video_" ++ id) i s e))[1]? =
      some (pad3 i ++ '_' :: (fmtF 1 s ++ 's' :: '_' ::
        (chars "to" ++ '_' :: (fmtF 1 e ++ 's' :: chars ".mp4")))) := by
    rw [pySplit_clip_clipName id i s e hid1 hid3]
    rfl
  have h2 : (pySplit (chars ".mp4") (pad3 i ++ '_' :: (fmtF 1 s ++ 's' :: '_' ::
      (chars "to" ++ '_' :: (fmtF 1 e ++ 's' :: chars ".mp4"))))).headD [] =
      pad3 i ++ '_' :: (fmtF 1 s ++ 's' :: '_' ::
        (chars "to" ++ '_' :: (fmtF 1 e ++ ['s']))) := by
    rw [pySplit_mp4_tailClip i s e]
    rfl
  have h3 : (pySplit (chars "_to_") (pad3 i ++ '_' :: (fmtF 1 s ++ 's' :: '_' ::
      (chars "to" ++ '_' :: (fmtF 1 e ++ ['s']))))).headD [] =
      pad3 i ++ '_' :: (fmtF 1 s ++ ['s']) := by
    rw [pySplit_to_tailClip i s e]
    rfl
  have h5 : (pySplit (chars "_") (pad3 i ++ '_' :: fmtF 1 s))[1]? = some (fmtF 1 s) := by
    rw [pySplit_us_startPart i s]
    rfl
  have h6 : parseFloat (fmtF 1 s) = some s :=
    parseFloat_fmtF_exact 1 s (by norm_num) hs0 (by rw [pow_one]; exact hs1)
  simp only [getClipTimestamps, h1, Option.pure_def, Option.bind_eq_bind,
    Option.some_bind, h2, h3, filter_startPart i s, h5, h6, Option.getD_some]

theorem parseFloat_eval_int (xs a : List Char) (ia : ℕ)
    (hs : pySplit ['.'] xs = [a]) (ha : a ≠ []) (hia : parseDigitsFrom 0 a = some ia) :
    parseFloat xs = some (ia : ℚ) := by
  simp [parseFloat, hs, ha, hia]

theorem getClipTimestamps_eval (f timePart p : List Char) (q : ℚ)
    (h1 : (pySplit (chars "_clip_") f)[1]? = some timePart)
    (h2 : (pySplit (chars "_")
      (((pySplit (chars "_to_") ((pySplit (chars ".mp4") timePart).headD [])).headD
        []).filter (fun c => c ≠ 's')))[1]? = some p)
    (h3 : parseFloat p = some q) :
    getClipTimestamps f = q := by
  simp only [getClipTimestamps, h1, Option.pure_def, Option.bind_eq_bind,
    Option.some_bind, h2, h3, Option.getD_some]

theorem fmtF_12 : fmtF 1 12 = chars "12.0" := by
  rw [fmtF_of_natCast 1 120 12 (by norm_num)]
  decide

theorem fmtF_345 : fmtF 1 (69 / 2) = chars "34.5" := by
  rw [fmtF_of_natCast 1 345 (69 / 2) (by norm_num)]
  decide

/-- C10 (amended): the clip filename round trip holds for every
underscore-free `<id>` that moreover is not the literal string `clip`
and contains no occurrence of `.mp4`: the clip-cache reader recovers
both times exactly and `_get_clip_timestamps` recovers the start
time. -/
theorem C10_clip_filename_roundtrip (id : List Char) (i : ℕ) (s e : ℚ)
    (hid1 : '_' ∉ id) (hid2 : containsSub (chars ".mp4") id = false)
    (hid3 : id ≠ chars "clip")
    (hs0 : 0 ≤ s) (hs1 : (s * 10).den = 1) (he0 : 0 ≤ e) (he1 : (e * 10).den = 1)
    (hse : s < e) :
    parseClipFile (clipName (chars "video_" ++ id) i s e) = some (s, e) ∧
      getClipTimestamps (clipName (chars "video_" ++ id) i s e) = s :=
  ⟨parseClipFile_clipName id i s e hid1 hid2 hs0 hs1 he0 he1,
    getClipTimestamps_clipName id i s e hid1 hid3 hs0 hs1⟩

/-- Witness for C10's amended round trip at `<id> = abc`, index 1,
times 12.0 and 34.5. -/
theorem C10_clip_filename_roundtrip_witness :
    parseClipFile (clipName (chars "video_" ++ chars "abc") 1 12 (69 / 2)) =
        some (12, 69 / 2) ∧
      getClipTimestamps (clipName (chars "video_" ++ chars "abc") 1 12 (69 / 2)) = 12 :=
  C10_clip_filename_roundtrip (chars "abc") 1 12 (69 / 2) (by decide) (by decide)
    (by decide) (by norm_num)
    (by rw [show (12 : ℚ) * 10 = ((120 : ℕ) : ℚ) by norm_num]; exact Rat.den_natCast 120)
    (by norm_num)
    (by rw [show (69 / 2 : ℚ) * 10 = ((345 : ℕ) : ℚ) by norm_num]; exact Rat.den_natCast 345)
    (by norm_num)

/-- Counterexample to C10 as stated: the underscore-free ids `clip`
and `a.mp4b` defeat the parsers. With `<id> = clip` the start-time
parser of the moment processor returns 1.0 instead of 12.0, and with
`<id> = a.mp4b` the clip-cache reader fails to parse the filename at
all. -/
theorem C10_clip_filename_roundtrip_counterexample :
    clipName (chars "video_" ++ chars "clip") 1 12 (69 / 2) =
        chars "video_clip_clip_001_12.0s_to_34.5s.mp4" ∧
      getClipTimestamps (chars "video_clip_clip_001_12.0s_to_34.5s.mp4") = 1 ∧
      (1 : ℚ) ≠ 12 ∧
      '_' ∉ chars "clip" ∧
      clipName (chars "video_" ++ chars "a.mp4b") 1 12 (69 / 2) =
        chars "video_a.mp4b_clip_001_12.0s_to_34.5s.mp4" ∧
      parseClipFile (chars "video_a.mp4b_clip_001_12.0s_to_34.5s.mp4") = none ∧
      '_' ∉ chars "a.mp4b" := by
  refine ⟨?_, ?_, by norm_num, by decide, ?_, ?_, by decide⟩
  · rw [clipName, fmtF_12, fmtF_345]
    decide
  · apply getClipTimestamps_eval _ (chars "clip_001_12.0s_to_34.5s.mp4") (chars "001")
    · decide
    · decide
    · have := parseFloat_eval_int (chars "001") (chars "001") 1 (by decide) (by decide)
        (by decide)
      simpa using this
  · rw [clipName, fmtF_12, fmtF_345]
    decide
  · decide

theorem pySplit_mp4_momentName (id : List Char) (n : ℕ) (s e c : ℚ)
    (hid2 : containsSub (chars ".mp4") id = false) :
    pySplit (chars ".mp4") (momentName id n s e c) =
      [chars "video_" ++ id ++ chars "_moment_" ++ pad3 n ++ chars "_" ++ fmtF 1 s ++
        chars "s_to_" ++ fmtF 1 e ++ chars "s_conf_" ++ fmtF 2 c, []] := by
  have hform : momentName id n s e c =
      chars "video_" ++ (id ++ (chars "_moment_" ++ (pad3 n ++ (chars "_" ++
        (fmtF 1 s ++ (chars "s_to_" ++ (fmtF 1 e ++ (chars "s_conf_" ++
          (fmtF 2 c ++ chars ".mp4"))))))))) := by
    rw [momentName]
    simp [List.append_assoc]
  rw [hform]
  rw [pySplit_append_noOccIn (chars ".mp4") (chars "video_") _
    (noOccIn_head '.' (chars "mp4") _ _ (by decide))]
  have hno : NoOccIn (chars ".mp4") id (chars "_moment_" ++ (pad3 n ++ (chars "_" ++
      (fmtF 1 s ++ (chars "s_to_" ++ (fmtF 1 e ++ (chars "s_conf_" ++
        (fmtF 2 c ++ chars ".mp4")))))))) :=
    noOccIn_not_contains (chars ".mp4") id '_' _ (by decide) hid2 (by decide)
  rw [pySplit_append_noOccIn (chars ".mp4") id _ hno]
  rw [pySplit_append_noOccIn (chars ".mp4") (chars "_moment_") _
    (noOccIn_head '.' (chars "mp4") _ _ (by decide))]
  rw [pySplit_append_noOccIn (chars ".mp4") (pad3 n) _
    (noOccIn_head '.' (chars "mp4") _ _
      (fun x hx => (isDigit_ne x (pad3_chars n x hx)).2.2.2.1))]
  rw [pySplit_append_noOccIn (chars ".mp4") (chars "_") _
    (noOccIn_head '.' (chars "mp4") _ _ (by decide))]
  rw [pySplit_append_noOccIn (chars ".mp4") (fmtF 1 s) _ (noOccIn_fmtF_mp4 1 s _)]
  rw [pySplit_append_noOccIn (chars ".mp4") (chars "s_to_") _
    (noOccIn_head '.' (chars "mp4") _ _ (by decide))]
  rw [pySplit_append_noOccIn (chars ".mp4") (fmtF 1 e) _ (noOccIn_fmtF_mp4 1 e _)]
  rw [pySplit_append_noOccIn (chars ".mp4") (chars "s_conf_") _
    (noOccIn_head '.' (chars "mp4") _ _ (by decide))]
  rw [pySplit_append_noOccIn (chars ".mp4") (fmtF 2 c) _ (noOccIn_fmtF_mp4 2 c _)]
  rw [pySplit_mp4_nil]
  simp [List.append_assoc]

theorem pySplit_us_preMoment (id : List Char) (n : ℕ) (s e c : ℚ) (hid1 : '_' ∉ id) :
    pySplit (chars "_") (chars "video_" ++ id ++ chars "_moment_" ++ pad3 n ++
        chars "_" ++ fmtF 1 s ++ chars "s_to_" ++ fmtF 1 e ++ chars "s_conf_" ++
        fmtF 2 c) =
      [chars "video", id, chars "moment", pad3 n, fmtF 1 s ++ chars "s", chars "to",
        fmtF 1 e ++ chars "s", chars "conf", fmtF 2 c] := by
  have hform : chars "video_" ++ id ++ chars "_moment_" ++ pad3 n ++ chars "_" ++
      fmtF 1 s ++ chars "s_to_" ++ fmtF 1 e ++ chars "s_conf_" ++ fmtF 2 c =
      chars "video" ++ (chars "_" ++ (id ++ (chars "_" ++ (chars "moment" ++
        (chars "_" ++ (pad3 n ++ (chars "_" ++ (fmtF 1 s ++ (chars "s" ++
          (chars "_" ++ (chars "to" ++ (chars "_" ++ (fmtF 1 e ++ (chars "s" ++
            (chars "_" ++ (chars "conf" ++ (chars "_" ++ fmtF 2 c))))))))))))))))) := by
    rw [show chars "video_" = chars "video" ++ chars "_" from rfl,
      show chars "_moment_" = chars "_" ++ chars "moment" ++ chars "_" from rfl,
      show chars "s_to_" = chars "s" ++ chars "_" ++ chars "to" ++ chars "_" from rfl,
      show chars "s_conf_" = chars "s" ++ chars "_" ++ chars "conf" ++ chars "_"
        from rfl]
    simp [List.append_assoc]
  rw [hform]
  rw [pySplit_append_noOccIn (chars "_") (chars "video") _
    (noOccIn_head '_' [] _ _ (by decide))]
  rw [pySplit_cons_sep (chars "_") _ (by decide)]
  rw [pySplit_append_noOccIn (chars "_") id _
    (noOccIn_head '_' [] _ _ (fun x hx heq => hid1 (heq ▸ hx)))]
  rw [pySplit_cons_sep (chars "_") _ (by decide)]
  rw [pySplit_append_noOccIn (chars "_") (chars "moment") _
    (noOccIn_head '_' [] _ _ (by decide))]
  rw [pySplit_cons_sep (chars "_") _ (by decide)]
  rw [pySplit_append_noOccIn (chars "_") (pad3 n) _
    (noOccIn_head '_' [] _ _ (fun x hx => (isDigit_ne x (pad3_chars n x hx)).1))]
  rw [pySplit_cons_sep (chars "_") _ (by decide)]
  rw [pySplit_append_noOccIn (chars "_") (fmtF 1 s) _
    (noOccIn_head '_' [] _ _ (fmtF_mem_ne 1 s '_' (by decide) (by decide)))]
  rw [pySplit_append_noOccIn (chars "_") (chars "s") _
    (noOccIn_head '_' [] _ _ (by decide))]
  rw [pySplit_cons_sep (chars "_") _ (by decide)]
  rw [pySplit_append_noOccIn (chars "_") (chars "to") _
    (noOccIn_head '_' [] _ _ (by decide))]
  rw [pySplit_cons_sep (chars "_") _ (by decide)]
  rw [pySplit_append_noOccIn (chars "_") (fmtF 1 e) _
    (noOccIn_head '_' [] _ _ (fmtF_mem_ne 1 e '_' (by decide) (by decide)))]
  rw [pySplit_append_noOccIn (chars "_") (chars "s") _
    (noOccIn_head '_' [] _ _ (by decide))]
  rw [pySplit_cons_sep (chars "_") _ (by decide)]
  rw [pySplit_append_noOccIn (chars "_") (chars "conf") _
    (noOccIn_head '_' [] _ _ (by decide))]
  rw [pySplit_cons_sep (chars "_") _ (by decide)]
  rw [pySplit_no_occ (chars "_") (fmtF 2 c)
    (noOccIn_head '_' [] _ _ (fmtF_mem_ne 2 c '_' (by decide) (by decide)))]
  simp [List.append_assoc]

/-- Round trip of the moment-cache reader inside `process_clip`: a
generated moment filename parses back to the rendered (rounded)
times and confidence. -/
theorem parseMomentFile_momentName (id : List Char) (n : ℕ) (s e c : ℚ)
    (hid1 : '_' ∉ id) (hid2 : containsSub (chars ".mp4") id = false) :
    parseMomentFile (momentName id n s e c) =
      some ⟨roundFix 1 s, roundFix 1 e, roundFix 2 c, momentName id n s e c⟩ := by
  have h4 : ([chars "video", id, chars "moment", pad3 n, fmtF 1 s ++ chars "s",
      chars "to", fmtF 1 e ++ chars "s", chars "conf", fmtF 2 c] :
      List (List Char))[4]? = some (fmtF 1 s ++ chars "s") := rfl
  have h6 : ([chars "video", id, chars "moment", pad3 n, fmtF 1 s ++ chars "s",
      chars "to", fmtF 1 e ++ chars "s", chars "conf", fmtF 2 c] :
      List (List Char))[6]? = some (fmtF 1 e ++ chars "s") := rfl
  have h8 : ([chars "video", id, chars "moment", pad3 n, fmtF 1 s ++ chars "s",
      chars "to", fmtF 1 e ++ chars "s", chars "conf", fmtF 2 c] :
      List (List Char))[8]? = some (fmtF 2 c) := rfl
  have hps : parseFloat ((fmtF 1 s ++ chars "s").dropLast) = some (roundFix 1 s) := by
    rw [show chars "s" = ['s'] from rfl, dropLast_append_single]
    exact parseFloat_fmtF 1 s (by norm_num)
  have hpe : parseFloat ((fmtF 1 e ++ chars "s").dropLast) = some (roundFix 1 e) := by
    rw [show chars "s" = ['s'] from rfl, dropLast_append_single]
    exact parseFloat_fmtF 1 e (by norm_num)
  have hpc : parseFloat (fmtF 2 c) = some (roundFix 2 c) :=
    parseFloat_fmtF 2 c (by norm_num)
  simp only [parseMomentFile, pySplit_mp4_momentName id n s e c hid2, List.headD_cons,
    pySplit_us_preMoment id n s e c hid1, h4, h6, h8, Option.pure_def,
    Option.bind_eq_bind, Option.some_bind, hps, hpe, hpc]

theorem processPredictions_moments_cases
    (trim : List Char → ℚ → ℚ → List Char → Bool)
    (preds : Option (List (ℚ × ℚ × ℚ))) (videoId clipPath : List Char)
    (existing : List Moment) (clipStartTime : ℚ) (pp : PPResult)
    (hrun : processPredictions trim preds videoId clipPath existing clipStartTime =
      some pp) :
    pp.moments = [] ∨ ∃ relStart relEnd confidence : ℚ, pp.moments =
      [⟨relStart + clipStartTime, relEnd + clipStartTime, confidence,
        momentName videoId (existing.length + 1) (relStart + clipStartTime)
          (relEnd + clipStartTime) confidence⟩] := by
  match preds with
  | none =>
    rw [processPredictions, Option.some_inj] at hrun
    subst hrun
    left
    rfl
  | some [] =>
    rw [processPredictions, Option.some_inj] at hrun
    subst hrun
    left
    rfl
  | some ((relStart, relEnd, confidence) :: rest) =>
    simp only [processPredictions] at hrun
    split at hrun
    · rw [Option.some_inj] at hrun
      subst hrun
      left
      rfl
    · split at hrun
      · exact absurd hrun (by simp)
      · split at hrun
        · rw [Option.some_inj] at hrun
          subst hrun
          left
          rfl
        · split at hrun
          · rw [Option.some_inj] at hrun
            subst hrun
            right
            exact ⟨relStart, relEnd, confidence, rfl⟩
          · rw [Option.some_inj] at hrun
            subst hrun
            left
            rfl

theorem isSuffixOf_mp4_momentName (id : List Char) (n : ℕ) (s e c : ℚ) :
    (chars ".mp4").isSuffixOf (momentName id n s e c) = true := by
  rw [List.isSuffixOf_iff_suffix]
  exact ⟨chars "video_" ++ id ++ chars "_moment_" ++ pad3 n ++ chars "_" ++
    fmtF 1 s ++ chars "s_to_" ++ fmtF 1 e ++ chars "s_conf_" ++ fmtF 2 c, rfl⟩

/-- C6 (amended): when the video id contains no underscore and no
occurrence of `.mp4` (so the written moment filename parses back), and
the first `process_clip` call on a fresh cache directory accepted a
moment, a second call with the same arguments returns the moment list
parsed back from the on-disk moment files and invokes neither
`encode_video` nor `predict`; the cache directory is left unchanged.
Both conditions are necessary: see the counterexample. -/
theorem C6_cache_idempotence (trim : List Char → ℚ → ℚ → List Char → Bool)
    (preds : Option (List (ℚ × ℚ × ℚ))) (id clipFile : List Char) (r1 : ClipResult)
    (hid1 : '_' ∉ id) (hid2 : containsSub (chars ".mp4") id = false)
    (hr1 : processClip trim preds id clipFile none = r1)
    (hacc : r1.moments ≠ []) :
    (processClip trim preds id clipFile r1.dir).encodeCalls = 0 ∧
      (processClip trim preds id clipFile r1.dir).predictCalls = 0 ∧
      (processClip trim preds id clipFile r1.dir).moments =
        readMomentsDir (r1.dir.getD []) ∧
      (processClip trim preds id clipFile r1.dir).dir = r1.dir := by
  simp only [processClip] at hr1
  rw [if_neg (by simp)] at hr1
  split at hr1
  · subst hr1
    exact absurd rfl hacc
  · rename_i pp hpp
    subst hr1
    rcases processPredictions_moments_cases trim preds id clipFile []
      (getClipTimestamps clipFile) pp hpp with hnil | ⟨relStart, relEnd, confidence, hm⟩
    · exact absurd hnil hacc
    · have hfname : pp.moments.map Moment.filename =
          [momentName id 1 (relStart + getClipTimestamps clipFile)
            (relEnd + getClipTimestamps clipFile) confidence] := by
        rw [hm]
        rfl
      have hread : readMomentsDir [momentName id 1
          (relStart + getClipTimestamps clipFile)
          (relEnd + getClipTimestamps clipFile) confidence] =
          [⟨roundFix 1 (relStart + getClipTimestamps clipFile),
            roundFix 1 (relEnd + getClipTimestamps clipFile), roundFix 2 confidence,
            momentName id 1 (relStart + getClipTimestamps clipFile)
              (relEnd + getClipTimestamps clipFile) confidence⟩] := by
        rw [readMomentsDir]
        rw [List.filter_cons_of_pos (by
          simpa using isSuffixOf_mp4_momentName id 1
            (relStart + getClipTimestamps clipFile)
            (relEnd + getClipTimestamps clipFile) confidence)]
        simp [List.filterMap,
          parseMomentFile_momentName id 1 (relStart + getClipTimestamps clipFile)
            (relEnd + getClipTimestamps clipFile) confidence hid1 hid2]
      have hgd : ((none : Option (List (List Char))).getD []) = [] := rfl
      simp only [ClipResult.dir, hfname, hgd, List.nil_append, Option.getD_some]
      simp only [processClip, Option.getD_some]
      rw [hread]
      rw [if_pos (by simp)]
      exact ⟨rfl, rfl, rfl, rfl⟩

/-- Start time parsed from the shared concrete clip filename. -/
theorem getCT_a9 : getClipTimestamps (chars "video_a_clip_001_0.0s_to_9.0s.mp4") = 0 := by
  apply getClipTimestamps_eval _ (chars "001_0.0s_to_9.0s.mp4") (chars "0.0")
  · decide
  · decide
  · have h := parseFloat_eval (chars "0.0") (chars "0") (chars "0") 0 0 (by decide)
      (by decide) (by decide) (by decide)
    rw [h]
    norm_num

/-- Shared concrete first call of `process_clip` on a fresh cache:
the 0.8-confidence moment is accepted and its file written. -/
theorem processClip_accept08 :
    processClip (fun _ _ _ _ => true) (some [(1, 2, 8 / 10)]) (chars "a")
        (chars "video_a_clip_001_0.0s_to_9.0s.mp4") none =
      ⟨[⟨1, 2, 8 / 10, momentName (chars "a") 1 1 2 (8 / 10)⟩],
        some [momentName (chars "a") 1 1 2 (8 / 10)], 1, 1, some []⟩ := by
  simp only [processClip]
  rw [if_neg (by simp), getCT_a9, processPredictions_accept08]
  rfl

/-- Witness for C6's amended statement at the shared 0.8-confidence
run. -/
theorem C6_cache_idempotence_witness :
    (processClip (fun _ _ _ _ => true) (some [(1, 2, 8 / 10)]) (chars "a")
        (chars "video_a_clip_001_0.0s_to_9.0s.mp4")
        (some [momentName (chars "a") 1 1 2 (8 / 10)])).encodeCalls = 0 ∧
      (processClip (fun _ _ _ _ => true) (some [(1, 2, 8 / 10)]) (chars "a")
        (chars "video_a_clip_001_0.0s_to_9.0s.mp4")
        (some [momentName (chars "a") 1 1 2 (8 / 10)])).predictCalls = 0 ∧
      (processClip (fun _ _ _ _ => true) (some [(1, 2, 8 / 10)]) (chars "a")
        (chars "video_a_clip_001_0.0s_to_9.0s.mp4")
        (some [momentName (chars "a") 1 1 2 (8 / 10)])).moments =
        readMomentsDir [momentName (chars "a") 1 1 2 (8 / 10)] ∧
      (processClip (fun _ _ _ _ => true) (some [(1, 2, 8 / 10)]) (chars "a")
        (chars "video_a_clip_001_0.0s_to_9.0s.mp4")
        (some [momentName (chars "a") 1 1 2 (8 / 10)])).dir =
        some [momentName (chars "a") 1 1 2 (8 / 10)] :=
  C6_cache_idempotence (fun _ _ _ _ => true) (some [(1, 2, 8 / 10)]) (chars "a")
    (chars "video_a_clip_001_0.0s_to_9.0s.mp4")
    ⟨[⟨1, 2, 8 / 10, momentName (chars "a") 1 1 2 (8 / 10)⟩],
      some [momentName (chars "a") 1 1 2 (8 / 10)], 1, 1, some []⟩
    (by decide) (by decide) processClip_accept08 (by simp)

/-- Rendering of the moment filename for the underscore-bearing video
id `a_b`. -/
theorem momentName_ab :
    momentName (chars "a_b") 1 1 2 (8 / 10) =
      chars "video_a_b_moment_001_1.0s_to_2.0s_conf_0.80.mp4" := by
  have h1 : fmtF 1 1 = chars "1.0" := by
    rw [fmtF_of_natCast 1 10 1 (by norm_num)]
    decide
  have h2 : fmtF 1 2 = chars "2.0" := by
    rw [fmtF_of_natCast 1 20 2 (by norm_num)]
    decide
  have h3 : fmtF 2 (8 / 10) = chars "0.80" := by
    rw [fmtF_of_natCast 2 80 (8 / 10) (by norm_num)]
    decide
  simp only [momentName, h1, h2, h3]
  decide

/-- The moment file written for video id `a_b` does not parse back:
underscore-split field 6 is `to`, so the `float` call fails and the
cache reader skips the file. -/
theorem parseMomentFile_ab :
    parseMomentFile (chars "video_a_b_moment_001_1.0s_to_2.0s_conf_0.80.mp4") = none := by
  decide

/-- Consequently the cache directory holding only that file reads back
as empty. -/
theorem readMomentsDir_ab :
    readMomentsDir [momentName (chars "a_b") 1 1 2 (8 / 10)] = [] := by
  rw [momentName_ab]
  decide

theorem getCT_ab :
    getClipTimestamps (chars "video_a_b_clip_001_0.0s_to_9.0s.mp4") = 0 := by
  apply getClipTimestamps_eval _ (chars "001_0.0s_to_9.0s.mp4") (chars "0.0")
  · decide
  · decide
  · have h := parseFloat_eval (chars "0.0") (chars "0") (chars "0") 0 0 (by decide)
      (by decide) (by decide) (by decide)
    rw [h]
    norm_num

theorem parseCET_ab :
    parseClipEndTime (chars "video_a_b_clip_001_0.0s_to_9.0s.mp4") = some 9 := by
  apply parseClipEndTime_eval _ (chars "9.0s.mp4")
  · decide
  · have h3 : (pySplit (chars "s.mp4") (chars "9.0s.mp4")).flatten = chars "9.0" := by decide
    rw [h3]
    have h6 := parseFloat_eval (chars "9.0") (chars "9") (chars "0") 9 0 (by decide)
      (by decide) (by decide) (by decide)
    rw [h6]
    norm_num

/-- Accepted 0.8-confidence run for the underscore-bearing video id. -/
theorem processPredictions_accept08_ab :
    processPredictions (fun _ _ _ _ => true) (some [(1, 2, 8 / 10)]) (chars "a_b")
        (chars "video_a_b_clip_001_0.0s_to_9.0s.mp4") [] 0 =
      some ⟨[⟨1, 2, 8 / 10, momentName (chars "a_b") 1 1 2 (8 / 10)⟩],
        [⟨1, 2, 8 / 10, momentName (chars "a_b") 1 1 2 (8 / 10)⟩], 1, some []⟩ := by
  simp only [processPredictions, if_neg (by norm_num : ¬ (8 / 10 : ℚ) < 0.75),
    parseCET_ab, isDuplicateMoment_nil, Bool.false_eq_true, if_false, if_true]
  norm_num

/-- First `process_clip` call for video id `a_b` on a fresh cache: the
moment is accepted and its file written. -/
theorem processClip_accept08_ab :
    processClip (fun _ _ _ _ => true) (some [(1, 2, 8 / 10)]) (chars "a_b")
        (chars "video_a_b_clip_001_0.0s_to_9.0s.mp4") none =
      ⟨[⟨1, 2, 8 / 10, momentName (chars "a_b") 1 1 2 (8 / 10)⟩],
        some [momentName (chars "a_b") 1 1 2 (8 / 10)], 1, 1, some []⟩ := by
  simp only [processClip]
  rw [if_neg (by simp), getCT_ab, processPredictions_accept08_ab]
  rfl

/-- Counterexample to C6 as stated, in two unguarded failure modes.
(1) When the first call stores no moment (confidence 0.5 below the
gate), the cache directory exists but is empty, and the second call
runs `encode_video` and `predict` again (both counters are 1, not 0).
(2) With a video id containing an underscore (`a_b`), the first call
accepts a moment and writes its file, but that filename does not parse
back (underscore-split field 6 is `to`, so the `float` call fails and
the file is skipped), so the second call re-invokes `encode_video` and
`predict` (both counters 1, not 0) even after an accepted first
call. -/
theorem C6_cache_idempotence_counterexample :
    (processClip (fun _ _ _ _ => true) (some [(1, 2, 1 / 2)]) (chars "a")
        (chars "video_a_clip_001_0.0s_to_9.0s.mp4") none =
      ⟨[], some [], 1, 1, none⟩ ∧
    processClip (fun _ _ _ _ => true) (some [(1, 2, 1 / 2)]) (chars "a")
        (chars "video_a_clip_001_0.0s_to_9.0s.mp4") (some []) =
      ⟨[], some [], 1, 1, none⟩) ∧
    (processClip (fun _ _ _ _ => true) (some [(1, 2, 8 / 10)]) (chars "a_b")
        (chars "video_a_b_clip_001_0.0s_to_9.0s.mp4") none =
      ⟨[⟨1, 2, 8 / 10, momentName (chars "a_b") 1 1 2 (8 / 10)⟩],
        some [momentName (chars "a_b") 1 1 2 (8 / 10)], 1, 1, some []⟩ ∧
    parseMomentFile (momentName (chars "a_b") 1 1 2 (8 / 10)) = none ∧
    processClip (fun _ _ _ _ => true) (some [(1, 2, 8 / 10)]) (chars "a_b")
        (chars "video_a_b_clip_001_0.0s_to_9.0s.mp4")
        (some [momentName (chars "a_b") 1 1 2 (8 / 10)]) =
      ⟨[⟨1, 2, 8 / 10, momentName (chars "a_b") 1 1 2 (8 / 10)⟩],
        some [momentName (chars "a_b") 1 1 2 (8 / 10),
          momentName (chars "a_b") 1 1 2 (8 / 10)], 1, 1, some []⟩) := by
  have hpp : processPredictions (fun _ _ _ _ => true) (some [(1, 2, 1 / 2)])
      (chars "a") (chars "video_a_clip_001_0.0s_to_9.0s.mp4") [] 0 =
      some ⟨[], [], 0, none⟩ := by
    simp only [processPredictions, if_pos (by norm_num : (1 / 2 : ℚ) < 0.75)]
  refine ⟨⟨?_, ?_⟩, processClip_accept08_ab, ?_, ?_⟩
  · simp only [processClip]
    rw [if_neg (by simp), getCT_a9, hpp]
    rfl
  · simp only [processClip]
    rw [if_neg (by simp [readMomentsDir]), getCT_a9, hpp]
    rfl
  · rw [momentName_ab]
    exact parseMomentFile_ab
  · simp only [processClip]
    rw [if_neg (by simp [readMomentsDir_ab]), getCT_ab, processPredictions_accept08_ab]
    rfl

theorem processPredictions_dupCheckInput
    (trim : List Char → ℚ → ℚ → List Char → Bool)
    (preds : Option (List (ℚ × ℚ × ℚ))) (videoId clipPath : List Char)
    (existing : List Moment) (clipStartTime : ℚ) (pp : PPResult)
    (hrun : processPredictions trim preds videoId clipPath existing clipStartTime =
      some pp) :
    pp.dupCheckInput = none ∨ pp.dupCheckInput = some existing := by
  match preds with
  | none =>
    rw [processPredictions, Option.some_inj] at hrun
    subst hrun
    left
    rfl
  | some [] =>
    rw [processPredictions, Option.some_inj] at hrun
    subst hrun
    left
    rfl
  | some ((relStart, relEnd, confidence) :: rest) =>
    simp only [processPredictions] at hrun
    split at hrun
    · rw [Option.some_inj] at hrun
      subst hrun
      left
      rfl
    · split at hrun
      · exact absurd hrun (by simp)
      · split at hrun
        · rw [Option.some_inj] at hrun
          subst hrun
          right
          rfl
        · split at hrun
          · rw [Option.some_inj] at hrun
            subst hrun
            right
            rfl
          · rw [Option.some_inj] at hrun
            subst hrun
            right
            rfl

/-- C3 (amended): within one pipeline run, the `existing_moments`
collection given to the duplicate-suppression check of any clip is the
empty list whenever the check runs at all: `process_clip` passes a
fresh `[]` on line 290, so no clip ever observes the moments accepted
for earlier clips. -/
theorem C3_no_shared_history (trim : List Char → ℚ → ℚ → List Char → Bool)
    (predFor : List Char → Option (List (ℚ × ℚ × ℚ))) (videoId : List Char)
    (listing : List (List Char)) (r : ClipResult)
    (hr : r ∈ pipelineTrace trim predFor videoId listing) :
    r.dupCheckInput = none ∨ r.dupCheckInput = some [] := by
  rw [pipelineTrace] at hr
  obtain ⟨f, hf, rfl⟩ := List.mem_map.1 hr
  simp only [processClip]
  rw [if_neg (by simp)]
  split
  · left
    rfl
  · rename_i pp hpp
    exact processPredictions_dupCheckInput trim (predFor f) videoId f []
      (getClipTimestamps f) pp hpp

/-- Witness for C3's amended statement: the clip result of the shared
0.8-confidence run, as the sole member of a one-clip pipeline trace. -/
theorem C3_no_shared_history_witness :
    (ClipResult.mk [⟨1, 2, 8 / 10, momentName (chars "a") 1 1 2 (8 / 10)⟩]
        (some [momentName (chars "a") 1 1 2 (8 / 10)]) 1 1
        (some [])).dupCheckInput = none ∨
      (ClipResult.mk [⟨1, 2, 8 / 10, momentName (chars "a") 1 1 2 (8 / 10)⟩]
        (some [momentName (chars "a") 1 1 2 (8 / 10)]) 1 1
        (some [])).dupCheckInput = some [] :=
  C3_no_shared_history (fun _ _ _ _ => true) (fun _ => some [(1, 2, 8 / 10)])
    (chars "a") [chars "video_a_clip_001_0.0s_to_9.0s.mp4"] _
    (by
      rw [pipelineTrace]
      rw [show ([chars "video_a_clip_001_0.0s_to_9.0s.mp4"]).filter
        (fun f => (chars ".mp4").isSuffixOf f) =
        [chars "video_a_clip_001_0.0s_to_9.0s.mp4"] from by decide]
      simp only [List.map_cons, List.map_nil]
      rw [processClip_accept08]
      simp)

theorem getCT_c2o :
    getClipTimestamps (chars "video_a_clip_002_0.0s_to_9.0s.mp4") = 0 := by
  apply getClipTimestamps_eval _ (chars "002_0.0s_to_9.0s.mp4") (chars "0.0")
  · decide
  · decide
  · have h := parseFloat_eval (chars "0.0") (chars "0") (chars "0") 0 0 (by decide)
      (by decide) (by decide) (by decide)
    rw [h]
    norm_num

theorem parseCET_c2o :
    parseClipEndTime (chars "video_a_clip_002_0.0s_to_9.0s.mp4") = some 9 := by
  apply parseClipEndTime_eval _ (chars "9.0s.mp4")
  · decide
  · have h3 : (pySplit (chars "s.mp4") (chars "9.0s.mp4")).flatten = chars "9.0" := by
      decide
    rw [h3]
    have h6 := parseFloat_eval (chars "9.0") (chars "9") (chars "0") 9 0 (by decide)
      (by decide) (by decide) (by decide)
    rw [h6]
    norm_num

theorem getCT_c2918 :
    getClipTimestamps (chars "video_a_clip_002_9.0s_to_18.0s.mp4") = 9 := by
  apply getClipTimestamps_eval _ (chars "002_9.0s_to_18.0s.mp4") (chars "9.0")
  · decide
  · decide
  · have h := parseFloat_eval (chars "9.0") (chars "9") (chars "0") 9 0 (by decide)
      (by decide) (by decide) (by decide)
    rw [h]
    norm_num

theorem parseCET_c2918 :
    parseClipEndTime (chars "video_a_clip_002_9.0s_to_18.0s.mp4") = some 18 := by
  apply parseClipEndTime_eval _ (chars "18.0s.mp4")
  · decide
  · have h3 : (pySplit (chars "s.mp4") (chars "18.0s.mp4")).flatten = chars "18.0" := by
      decide
    rw [h3]
    have h6 := parseFloat_eval (chars "18.0") (chars "18") (chars "0") 18 0 (by decide)
      (by decide) (by decide) (by decide)
    rw [h6]
    norm_num

theorem processPredictions_accept08_c2o :
    processPredictions (fun _ _ _ _ => true) (some [(1, 2, 8 / 10)]) (chars "a")
        (chars "video_a_clip_002_0.0s_to_9.0s.mp4") [] 0 =
      some ⟨[⟨1, 2, 8 / 10, momentName (chars "a") 1 1 2 (8 / 10)⟩],
        [⟨1, 2, 8 / 10, momentName (chars "a") 1 1 2 (8 / 10)⟩], 1, some []⟩ := by
  simp only [processPredictions, if_neg (by norm_num : ¬ (8 / 10 : ℚ) < 0.75),
    parseCET_c2o, isDuplicateMoment_nil, Bool.false_eq_true, if_false, if_true]
  norm_num

theorem processClip_accept08_c2o :
    processClip (fun _ _ _ _ => true) (some [(1, 2, 8 / 10)]) (chars "a")
        (chars "video_a_clip_002_0.0s_to_9.0s.mp4") none =
      ⟨[⟨1, 2, 8 / 10, momentName (chars "a") 1 1 2 (8 / 10)⟩],
        some [momentName (chars "a") 1 1 2 (8 / 10)], 1, 1, some []⟩ := by
  simp only [processClip]
  rw [if_neg (by simp), getCT_c2o, processPredictions_accept08_c2o]
  rfl

theorem processPredictions_accept08_c2918 :
    processPredictions (fun _ _ _ _ => true) (some [(1, 2, 8 / 10)]) (chars "a")
        (chars "video_a_clip_002_9.0s_to_18.0s.mp4") [] 9 =
      some ⟨[⟨10, 11, 8 / 10, momentName (chars "a") 1 10 11 (8 / 10)⟩],
        [⟨10, 11, 8 / 10, momentName (chars "a") 1 10 11 (8 / 10)⟩], 1, some []⟩ := by
  simp only [processPredictions, if_neg (by norm_num : ¬ (8 / 10 : ℚ) < 0.75),
    parseCET_c2918, isDuplicateMoment_nil, Bool.false_eq_true, if_false, if_true]
  norm_num

theorem processClip_accept08_c2918 :
    processClip (fun _ _ _ _ => true) (some [(1, 2, 8 / 10)]) (chars "a")
        (chars "video_a_clip_002_9.0s_to_18.0s.mp4") none =
      ⟨[⟨10, 11, 8 / 10, momentName (chars "a") 1 10 11 (8 / 10)⟩],
        some [momentName (chars "a") 1 10 11 (8 / 10)], 1, 1, some []⟩ := by
  simp only [processClip]
  rw [if_neg (by simp), getCT_c2918, processPredictions_accept08_c2918]
  rfl

/-- Counterexample to C3 as stated: two clips with identical absolute
range `[0, 9)` (possible since supplied windows are not validated).
Clip 1 accepts a moment; when clip 2 is evaluated, the collection
given to its duplicate check is `some []`, which does not contain clip
1's accepted moment — and the clip-2 candidate is accepted even though
the shared-history check would have flagged it as a duplicate. -/
theorem C3_no_shared_history_counterexample :
    pipelineTrace (fun _ _ _ _ => true) (fun _ => some [(1, 2, 8 / 10)]) (chars "a")
        [chars "video_a_clip_001_0.0s_to_9.0s.mp4",
          chars "video_a_clip_002_0.0s_to_9.0s.mp4"] =
      [⟨[⟨1, 2, 8 / 10, momentName (chars "a") 1 1 2 (8 / 10)⟩],
          some [momentName (chars "a") 1 1 2 (8 / 10)], 1, 1, some []⟩,
        ⟨[⟨1, 2, 8 / 10, momentName (chars "a") 1 1 2 (8 / 10)⟩],
          some [momentName (chars "a") 1 1 2 (8 / 10)], 1, 1, some []⟩] ∧
      (⟨1, 2, 8 / 10, momentName (chars "a") 1 1 2 (8 / 10)⟩ : Moment) ∉
        ([] : List Moment) ∧
      isDuplicateMoment ⟨1, 2, 8 / 10, []⟩
        [⟨1, 2, 8 / 10, momentName (chars "a") 1 1 2 (8 / 10)⟩] 0 9 = true := by
  refine ⟨?_, by simp, ?_⟩
  · rw [pipelineTrace]
    rw [show ([chars "video_a_clip_001_0.0s_to_9.0s.mp4",
        chars "video_a_clip_002_0.0s_to_9.0s.mp4"]).filter
        (fun f => (chars ".mp4").isSuffixOf f) =
        [chars "video_a_clip_001_0.0s_to_9.0s.mp4",
          chars "video_a_clip_002_0.0s_to_9.0s.mp4"] from by decide]
    simp only [List.map_cons, List.map_nil]
    rw [processClip_accept08, processClip_accept08_c2o]
  · simp only [isDuplicateMoment, List.filter, List.any_cons, List.any_nil]
    norm_num

/-- C7 (amended): aggregation follows the enumeration order of the
directory listing with no re-ranking: the moments of a listing
`l1 ++ l2` are exactly the moments of `l1` followed by the moments of
`l2`, for every predictor and trim oracle; the listing itself is not
sorted by clip index. -/
theorem C7_listing_order (trim : List Char → ℚ → ℚ → List Char → Bool)
    (predFor : List Char → Option (List (ℚ × ℚ × ℚ))) (videoId : List Char)
    (l1 l2 : List (List Char)) :
    processClipForMoments trim predFor videoId (l1 ++ l2) =
      processClipForMoments trim predFor videoId l1 ++
        processClipForMoments trim predFor videoId l2 := by
  simp [processClipForMoments, pipelineTrace, List.filter_append, List.map_append,
    List.flatten_append]

/-- Counterexample to C7 as stated: with the directory listing
enumerating clip 002 (range `[9, 18)`) before clip 001 (range
`[0, 9)`), the aggregated sequence lists clip 002's moment (absolute
`[10, 11)`) before clip 001's (absolute `[1, 2)`), i.e. a later clip's
moment precedes an earlier clip's. -/
theorem C7_listing_order_counterexample :
    processClipForMoments (fun _ _ _ _ => true) (fun _ => some [(1, 2, 8 / 10)])
        (chars "a")
        [chars "video_a_clip_002_9.0s_to_18.0s.mp4",
          chars "video_a_clip_001_0.0s_to_9.0s.mp4"] =
      [⟨10, 11, 8 / 10, momentName (chars "a") 1 10 11 (8 / 10)⟩,
        ⟨1, 2, 8 / 10, momentName (chars "a") 1 1 2 (8 / 10)⟩] ∧
      getClipTimestamps (chars "video_a_clip_002_9.0s_to_18.0s.mp4") = 9 ∧
      getClipTimestamps (chars "video_a_clip_001_0.0s_to_9.0s.mp4") = 0 := by
  refine ⟨?_, getCT_c2918, getCT_a9⟩
  rw [processClipForMoments, pipelineTrace]
  rw [show ([chars "video_a_clip_002_9.0s_to_18.0s.mp4",
      chars "video_a_clip_001_0.0s_to_9.0s.mp4"]).filter
      (fun f => (chars ".mp4").isSuffixOf f) =
      [chars "video_a_clip_002_9.0s_to_18.0s.mp4",
        chars "video_a_clip_001_0.0s_to_9.0s.mp4"] from by decide]
  simp only [List.map_cons, List.map_nil]
  rw [processClip_accept08_c2918, processClip_accept08]
  simp

end Spill
